import Mathlib

/-!
Verification development for the Digital RF streaming writer
(`rf_write_hdf5.c`).  The C functions are shallowly embedded: the
`Digital_rf_write_object` struct becomes the `Drf` structure, `uint64_t`
values become `Nat` (with the 2^64 wraparound made explicit, via `usub64`
and `wrap64`, at the subtractions and the one addition where the C
arithmetic can actually wrap), C `double` values become exact rationals,
and the filesystem / HDF5 side effects become explicit fields of the
state (`dirs`, `files`).  Fallible functions return their mutated state
together with an `Except` value; the C functions report errors through a
sentinel return value plus a message on stderr, and the `DrfError`
constructors name those stderr messages.  The active `assert` calls of
the C source (the library is built without NDEBUG) are modelled as a
distinguished `assertFailed` outcome.
-/

/-- 2^64, the modulus of the C `uint64_t` arithmetic. -/
def U64MOD : ℕ := 18446744073709551616

/-- `uint64_t` subtraction `a - b` for operands `a, b < 2^64`. -/
def usub64 (a b : ℕ) : ℕ := if b ≤ a then a - b else a + U64MOD - b

/-- Reduce a sum of `uint64_t` quantities modulo 2^64. -/
def wrap64 (n : ℕ) : ℕ := n % U64MOD

/-!  Model of the C library `gmtime` (proleptic Gregorian civil calendar,
days split out of seconds since the Unix epoch).  `gmtime` itself is not
part of this repository; this is the standard civil-from-days algorithm
for non-negative `time_t`. -/

/-- Convert a day count since 1970-01-01 to `(year, month, day)`. -/
def civilFromDays (z : ℕ) : ℕ × ℕ × ℕ :=
  let zd := z + 719468
  let era := zd / 146097
  let doe := zd % 146097
  let yoe := (doe - doe / 1460 + doe / 36524 - doe / 146096) / 365
  let y := yoe + era * 400
  let doy := doe - (365 * yoe + yoe / 4 - yoe / 100)
  let mp := (5 * doy + 2) / 153
  let d := doy - (153 * mp + 2) / 5 + 1
  let m := if mp < 10 then mp + 3 else mp - 9
  (if m ≤ 2 then y + 1 else y, m, d)

/-- `gmtime` for a non-negative `time_t`:
`(year, month, day, hour, minute, second)`. -/
def gmtimeModel (t : ℕ) : ℕ × ℕ × ℕ × ℕ × ℕ × ℕ :=
  let c := civilFromDays (t / 86400)
  let secs := t % 86400
  (c.1, c.2.1, c.2.2, secs / 3600, secs % 3600 / 60, secs % 60)

/-- Result record of `digital_rf_get_unix_time`. -/
structure UnixTimeParts where
  year : ℕ
  month : ℕ
  day : ℕ
  hour : ℕ
  minute : ℕ
  second : ℕ
  picosecond : ℕ
deriving Repr, DecidableEq

/-- Embedding of `digital_rf_get_unix_time` (rf_write_hdf5.c:332).  The C
`double` arithmetic is modelled exactly over `ℚ`.  `(time_t)(g/rate)`
truncates the non-negative quotient, i.e. takes its floor;
`fmod(sample_rate, 1.0) == 0.0` holds exactly when the rational rate has
denominator 1; on that branch the C code computes the remainder as
`global_sample - unix_second * (uint64_t)sample_rate` in integer
arithmetic. -/
def digital_rf_get_unix_time (global_sample : ℕ) (sample_rate : ℚ) :
    Option UnixTimeParts :=
  let unix_second : ℕ := (⌊(global_sample : ℚ) / sample_rate⌋).toNat
  let g := gmtimeModel unix_second
  let unix_remainder : ℚ :=
    if sample_rate.den = 1 then
      ((global_sample - unix_second * (⌊sample_rate⌋).toNat : ℕ) : ℚ)
    else
      (global_sample : ℚ) - (⌊(global_sample : ℚ) / sample_rate⌋ : ℚ) * sample_rate
  some { year := g.1, month := g.2.1, day := g.2.2.1, hour := g.2.2.2.1,
         minute := g.2.2.2.2.1, second := g.2.2.2.2.2,
         picosecond := (round (unix_remainder / sample_rate * 1000000000000)).toNat }

/-- Zero-pad the decimal form of `n` on the left to `width` characters
(the `%0Ni` conversions of the C code). -/
def natToPadded (width n : ℕ) : String :=
  let s := toString n
  if s.length < width then String.mk (List.replicate (width - s.length) '0') ++ s else s

/-- The `sprintf("%011.3f", x)` conversion for a non-negative value:
three decimal digits, zero-padded to a total width of 11.  The double is
modelled as an exact rational; the fractional part is rounded to the
nearest thousandth. -/
def format11_3 (q : ℚ) : String :=
  let m : ℕ := (round (q * 1000)).toNat
  let s := toString (m / 1000) ++ "." ++ natToPadded 3 (m % 1000)
  if s.length < 11 then String.mk (List.replicate (11 - s.length) '0') ++ s else s

/-- One output HDF5 file: its full path, the `sequence_num` attribute,
the samples written to `rf_data` so far (writes are contiguous from row
0, so a list records them faithfully), and the `rf_data_index` rows. -/
structure DrfFileRec where
  name : String
  seq : ℤ
  rf_data : List ℕ
  rf_data_index : List (ℕ × ℕ)
deriving Repr, DecidableEq

/-- The `Digital_rf_write_object` channel state together with the
filesystem effects (`dirs`: subdirectories created so far, `files`: files
created so far, most recent last). -/
structure Drf where
  directory : String
  samples_per_file : ℕ
  files_per_directory : ℕ
  global_start_sample : ℕ
  sample_rate : ℚ
  needs_chunking : Bool
  chunk_size : ℕ
  global_index : ℕ
  present_seq : ℤ
  dataset_index : ℕ
  dataset_avail : ℕ
  next_index_avail : ℕ
  file_open : Bool
  sub_directory : Option String
  dirs : List String
  files : List DrfFileRec
deriving Repr, DecidableEq

/-- Error outcomes; each constructor corresponds to one stderr message /
failure path of the C source.  `assertFailed` models an active `assert`
aborting the process. -/
inductive DrfError where
  | writeBeforeCursor
  | indexLenZero
  | firstDataIndexNonzero
  | indexOutOfOrder
  | indexTooFast
  | globalBeforeMin
  | assertFailed
  | mkdirFailed
  | gmtimeFailed
  | fileCreateFailed
  | typeUnsupported
  | zeroWritten
  | fuelExhausted
deriving Repr, DecidableEq

/-- The spec's `IndexMalformed` error kind: first in-buffer index nonzero,
indices out of order, or indices advancing faster than the globals. -/
def DrfError.isIndexMalformed : DrfError → Bool
  | .firstDataIndexNonzero => true
  | .indexOutOfOrder => true
  | .indexTooFast => true
  | _ => false

/-- The subdirectory name `YYYY-MM-DDTHH:MM:SS` computed by
`digital_rf_create_new_directory` from the next global sample
(rf_write_hdf5.c:692-696); `none` when `gmtime` fails. -/
def drfSubdirName (o : Drf) (next_global_sample : ℕ) : Option String :=
  match digital_rf_get_unix_time (next_global_sample + o.global_start_sample) o.sample_rate with
  | none => none
  | some t =>
      some (natToPadded 4 t.year ++ "-" ++ natToPadded 2 t.month ++ "-" ++
            natToPadded 2 t.day ++ "T" ++ natToPadded 2 t.hour ++ ":" ++
            natToPadded 2 t.minute ++ ":" ++ natToPadded 2 t.second)

/-- Embedding of `digital_rf_create_new_directory` (rf_write_hdf5.c:674).
`mkdir` fails when the directory already exists; on success
`sub_directory` is replaced by the new name with a trailing slash. -/
def digital_rf_create_new_directory (o : Drf) (next_global_sample : ℕ) :
    Drf × Except DrfError Unit :=
  match drfSubdirName o next_global_sample with
  | none => (o, .error .gmtimeFailed)
  | some sub =>
      let full := o.directory ++ sub
      if full ∈ o.dirs then (o, .error .mkdirFailed)
      else ({ o with dirs := o.dirs ++ [full], sub_directory := some (sub ++ "/") }, .ok ())

/-- The full path of the file `digital_rf_create_hdf5_file` opens:
directory, current subdirectory, and the basename
`rf@<unix_seconds>.<millis>.h5` obtained by formatting
`(next_global_sample + global_start_sample) / sample_rate` with
`%011.3f` (rf_write_hdf5.c:616-629). -/
def drfFullFileName (o : Drf) (next_global_sample : ℕ) : String :=
  o.directory ++ (o.sub_directory.getD "") ++
    ("rf@" ++ format11_3
       (((next_global_sample + o.global_start_sample : ℕ) : ℚ) / o.sample_rate) ++ ".h5")

/-- The `H5Fcreate(..., H5F_ACC_EXCL, ...)` step of
`digital_rf_create_hdf5_file` (rf_write_hdf5.c:626-666): compose the full
file name from the current subdirectory, fail when the file already
exists, otherwise create it, reset the write cursor and make the full
capacity available. -/
def drfOpenFileInSubdir (o : Drf) (next_global_sample : ℕ) :
    Drf × Except DrfError Unit :=
  let fullname := drfFullFileName o next_global_sample
  if (o.files.map DrfFileRec.name).contains fullname then
    (o, .error .fileCreateFailed)
  else
    ({ o with
         files := o.files ++ [{ name := fullname, seq := o.present_seq,
                                 rf_data := [], rf_data_index := [] }],
         file_open := true, dataset_index := 0,
         dataset_avail := o.samples_per_file }, .ok ())

/-- Embedding of `digital_rf_create_hdf5_file` (rf_write_hdf5.c:587).
The sequence number is incremented first; a new subdirectory is created
when the incremented sequence is divisible by `files_per_directory`;
then the file is opened exclusively in the current subdirectory. -/
def digital_rf_create_hdf5_file (o : Drf) (next_global_sample : ℕ) :
    Drf × Except DrfError Unit :=
  let o1 := { o with present_seq := o.present_seq + 1 }
  if o1.present_seq % (o1.files_per_directory : ℤ) = 0 then
    match digital_rf_create_new_directory o1 next_global_sample with
    | (o2, .error e) => (o2, .error e)
    | (o2, .ok _) => drfOpenFileInSubdir o2 next_global_sample
  else drfOpenFileInSubdir o1 next_global_sample

/-- Apply `f` to the most recently created file (the open one). -/
def updateLastFile (o : Drf) (f : DrfFileRec → DrfFileRec) : Drf :=
  { o with files := o.files.dropLast ++ (o.files.getLast?.map f).toList }

/-- Embedding of `digital_rf_write_rf_data_index` (rf_write_hdf5.c:1137):
append the rows to the open file's `rf_data_index` dataset, creating it
(`index_dataset == 0`, i.e. the open file has no rows yet) or extending
it, and advance `next_index_avail`. -/
def digital_rf_write_rf_data_index (o : Drf) (rows : List (ℕ × ℕ)) : Drf :=
  let fresh := (o.files.getLast?.map DrfFileRec.rf_data_index).getD [] = []
  let o1 := updateLastFile o (fun fr => { fr with rf_data_index := fr.rf_data_index ++ rows })
  { o1 with next_index_avail :=
      if fresh then rows.length else o.next_index_avail + rows.length }

/-- First counting/validation pass of `digital_rf_create_rf_data_index`
(rf_write_hdf5.c:1044-1073).  `prev` is the previous `(global, in_buf)`
pair (the `i > 0` guard of the C loop), `ff` the `first_index_found`
flag, `cnt` the running `row_count`.  The in-buffer indices must be
strictly increasing and must not advance faster than the global indices,
the latter compared with `uint64_t` subtraction. -/
def rf_index_pass1 (o : Drf) (first_index end_index : ℕ) :
    List (ℕ × ℕ) → Option (ℕ × ℕ) → Bool → ℕ → Except DrfError (Bool × ℕ)
  | [], _, ff, cnt => .ok (ff, cnt)
  | (g, b) :: rest, some (gp, bp), ff, cnt =>
      if b ≤ bp then .error .indexOutOfOrder
      else if usub64 g gp < b - bp then .error .indexTooFast
      else
        rf_index_pass1 o first_index end_index rest (some (g, b))
          (ff || decide (b = first_index))
          (cnt + if first_index ≤ b ∧ b < end_index ∧
                    ¬(b = first_index ∧ 0 < o.dataset_index ∧ o.global_index = g)
                 then 1 else 0)
  | (g, b) :: rest, none, ff, cnt =>
      rf_index_pass1 o first_index end_index rest (some (g, b))
        (ff || decide (b = first_index))
        (cnt + if first_index ≤ b ∧ b < end_index ∧
                  ¬(b = first_index ∧ 0 < o.dataset_index ∧ o.global_index = g)
               then 1 else 0)

/-- Second fill pass of `digital_rf_create_rf_data_index`
(rf_write_hdf5.c:1093-1128).  `acc` is the list of rows written so far
(`rows_written` is its length): a pair at the slice start is dropped when
the file is mid-flight and the global cursor already equals its global; a
pair in range is emitted as `(g + global_start_sample,
b + dataset_index - samples_written)`, preceded by a synthetic boundary
row `(global_index + global_start_sample, 0)` when it is the first row
emitted and does not itself sit at the slice start; if no row at all was
emitted, the synthetic boundary row is produced alone. -/
def rf_index_pass2 (o : Drf) (first_index end_index sw : ℕ) :
    List (ℕ × ℕ) → List (ℕ × ℕ) → List (ℕ × ℕ)
  | [], acc =>
      if acc.length = 0 then [(o.global_index + o.global_start_sample, 0)] else acc
  | (g, b) :: rest, acc =>
      if b = first_index ∧ 0 < o.dataset_index ∧ o.global_index = g then
        rf_index_pass2 o first_index end_index sw rest acc
      else if first_index ≤ b ∧ b < end_index then
        if b = first_index then
          rf_index_pass2 o first_index end_index sw rest
            (acc ++ [(g + o.global_start_sample, b + o.dataset_index - sw)])
        else
          let acc2 :=
            if acc.length = 0 then [(o.global_index + o.global_start_sample, 0)] else acc
          rf_index_pass2 o first_index end_index sw rest
            (acc2 ++ [(g + o.global_start_sample, b + o.dataset_index - sw)])
      else rf_index_pass2 o first_index end_index sw rest acc

/-- Embedding of `digital_rf_create_rf_data_index` (rf_write_hdf5.c:998).
The index pairs are passed as one list of `(global, in_buf)` pairs.  The
counting pass validates the input and determines `row_count` (plus one
synthetic row when no pair sits at the slice start); when the count is
zero the function returns no rows at once; otherwise the fill pass
produces the rows.  The C code `assert`s that both passes agree (the fill
pass writes into a buffer sized by the counting pass); a disagreement —
which is reachable — aborts the process, modelled as `assertFailed`. -/
def digital_rf_create_rf_data_index (o : Drf) (samples_written : ℕ)
    (pairs : List (ℕ × ℕ)) : Except DrfError (List (ℕ × ℕ)) :=
  let first_index := samples_written
  let end_index := first_index + o.samples_per_file - o.dataset_index
  if samples_written = 0 ∧ (pairs.headD (0, 0)).1 < o.global_index then
    .error .globalBeforeMin
  else
    match rf_index_pass1 o first_index end_index pairs none false 0 with
    | .error e => .error e
    | .ok (ff, cnt) =>
        let row_count := cnt + if ff then 0 else 1
        if row_count = 0 then .ok []
        else
          let rows := rf_index_pass2 o first_index end_index samples_written pairs []
          if rows.length = row_count then .ok rows else .error .assertFailed

/-- Loop body of `digital_rf_get_global_sample` (rf_write_hdf5.c:1221):
scan the remaining pairs, keeping `g + (samples_written - b)` for the
last pair with `b ≤ samples_written`. -/
def get_global_sample_go (samples_written : ℕ) : List (ℕ × ℕ) → ℕ → ℕ
  | [], acc => acc
  | (g, b) :: rest, acc =>
      if samples_written < b then acc
      else get_global_sample_go samples_written rest (g + (samples_written - b))

/-- Embedding of `digital_rf_get_global_sample` (rf_write_hdf5.c:1199):
the global sample corresponding to buffer position `samples_written`. -/
def digital_rf_get_global_sample (samples_written : ℕ) (pairs : List (ℕ × ℕ)) : ℕ :=
  match pairs with
  | [] => 0
  | (g0, b0) :: rest => get_global_sample_go samples_written rest (g0 + usub64 samples_written b0)

/-- Embedding of `digital_rf_write_samples_to_file` (rf_write_hdf5.c:431):
write one file slice.  Validates `index_len ≥ 1` and
`data_index_arr[0] == 0`, builds the index rows, opens a new file if none
is open, writes `min(remaining samples, dataset_avail)` samples of the
vector, appends the index rows when non-empty, advances the state (the
global cursor from the last index row, in `uint64_t` arithmetic), and
closes the file when full.  Returns the mutated state and the number of
samples written (the C function returns 0 and leaves the object as-is on
the error paths shown).  `drfWriteSliceBody` is the error-free tail of
the function: the hyperslab write of
`min(vector_length - samples_written, dataset_avail)` samples, the
append of the index rows when non-empty, the state advance (the
global cursor from the last and first index rows, in `uint64_t`
arithmetic, or by `samples_to_write` when no row was produced), and the
close of the file when full. -/
def drfWriteSliceBody (o1 : Drf) (samples_written : ℕ) (rows : List (ℕ × ℕ))
    (vector : List ℕ) (vector_length : ℕ) : Drf × ℕ :=
  let samples_to_write := min (vector_length - samples_written) o1.dataset_avail
  let o2 := updateLastFile o1 (fun fr =>
    { fr with rf_data :=
        fr.rf_data ++ (vector.drop samples_written).take samples_to_write })
  let o3 := if 0 < rows.length then digital_rf_write_rf_data_index o2 rows else o2
  let o4 := { o3 with dataset_index := o3.dataset_index + samples_to_write,
                      dataset_avail := o3.dataset_avail - samples_to_write }
  let o5 : Drf :=
    match rows with
    | [] => { o4 with global_index := o4.global_index + samples_to_write }
    | headRow :: restRows =>
        { o4 with global_index :=
            wrap64 (usub64 ((headRow :: restRows).getLast (List.cons_ne_nil _ _)).1
                      o4.global_start_sample +
                    usub64 samples_to_write
                      (usub64 ((headRow :: restRows).getLast (List.cons_ne_nil _ _)).2
                         headRow.2)) }
  let o6 :=
    if o5.dataset_index = o5.samples_per_file then
      { o5 with file_open := false, dataset_index := 0 }
    else o5
  (o6, samples_to_write)

def digital_rf_write_samples_to_file (o : Drf) (samples_written : ℕ)
    (pairs : List (ℕ × ℕ)) (vector : List ℕ) (vector_length : ℕ) :
    Drf × Except DrfError ℕ :=
  if pairs.length < 1 then (o, .error .indexLenZero)
  else if (pairs.headD (0, 0)).2 ≠ 0 then (o, .error .firstDataIndexNonzero)
  else
    match digital_rf_create_rf_data_index o samples_written pairs with
    | .error e => (o, .error e)
    | .ok rows =>
        match (if o.file_open then (o, Except.ok ())
               else digital_rf_create_hdf5_file o
                      (digital_rf_get_global_sample samples_written pairs)) with
        | (o1, .error e) => (o1, .error e)
        | (o1, .ok _) =>
            let r := drfWriteSliceBody o1 samples_written rows vector vector_length
            (r.1, .ok r.2)

/-- The `while (samples_written < vector_length)` loop of
`digital_rf_write_blocks_hdf5` (rf_write_hdf5.c:307-314), with explicit
fuel.  A slice writing zero samples is the C `return(-6)` error path. -/
def write_blocks_loop (pairs : List (ℕ × ℕ)) (vector : List ℕ) (vector_length : ℕ) :
    ℕ → Drf → ℕ → Drf × Except DrfError Unit
  | 0, o, sw =>
      if sw < vector_length then (o, .error .fuelExhausted) else (o, .ok ())
  | fuel + 1, o, sw =>
      if sw < vector_length then
        match digital_rf_write_samples_to_file o sw pairs vector vector_length with
        | (o1, .error e) => (o1, .error e)
        | (o1, .ok n) =>
            if n = 0 then (o1, .error .zeroWritten)
            else write_blocks_loop pairs vector vector_length fuel o1 (sw + n)
      else (o, .ok ())

/-- Embedding of `digital_rf_write_blocks_hdf5` (rf_write_hdf5.c:246):
reject a leading global index before the cursor, fix the chunk size on
the first chunked write, then run the write loop (fuel
`vector_length + 1` is enough, as proved below). -/
def digital_rf_write_blocks_hdf5 (o : Drf) (pairs : List (ℕ × ℕ))
    (vector : List ℕ) (vector_length : ℕ) : Drf × Except DrfError Unit :=
  if (pairs.headD (0, 0)).1 < o.global_index then (o, .error .writeBeforeCursor)
  else
    let o1 :=
      if o.needs_chunking ∧ o.chunk_size = 0 then
        { o with chunk_size :=
            if vector_length < o.samples_per_file then vector_length
            else o.samples_per_file }
      else o
    write_blocks_loop pairs vector vector_length (vector_length + 1) o1 0

/-- Embedding of `digital_rf_write_hdf5` (rf_write_hdf5.c:214): the
continuous append is, by definition in the C source, a call of
`digital_rf_write_blocks_hdf5` with the singleton index arrays
`global = [leading_edge]`, `in_buf = [0]`, `index_len = 1`. -/
def digital_rf_write_hdf5 (o : Drf) (global_leading_edge_index : ℕ)
    (vector : List ℕ) (vector_length : ℕ) : Drf × Except DrfError Unit :=
  digital_rf_write_blocks_hdf5 o [(global_leading_edge_index, 0)] vector vector_length

/-!  Embedding of `digital_rf_set_fill_value` (rf_write_hdf5.c:721).  The
datatype is described the way the C code queries HDF5 for it: class
(integer or float), sign, size in bytes, byte order.  The fill is modelled
at byte level: each C fill object is the list of its bytes in host memory
order, and `H5Pset_fill_value(prop, type, buf)` — called with the
dataset's own type, so no conversion happens — stores `H5Tget_size(type)`
bytes read from `buf`.  A byte read past the end of the C object is an
out-of-bounds read and is modelled as `none`.  In particular the scalar
float branch (line 809) passes the 8-byte `double` NaN for a dataset of
any float size, so a 4-byte float dataset receives only the double's
first four host bytes; and the scalar unsigned branch (line 826) passes a
4-byte `int`, so an 8-byte unsigned dataset reads four bytes out of
bounds.  Whether the host is little-endian
(`digital_rf_is_little_endian`) is a parameter. -/

/-- HDF5 datatype byte order (`H5T_ORDER_LE` / `H5T_ORDER_BE`). -/
inductive H5Order where
  | le
  | be
deriving Repr, DecidableEq

/-- HDF5 datatype class as queried by the C code (`H5T_INTEGER` /
`H5T_FLOAT`). -/
inductive H5Class where
  | integer
  | float
deriving Repr, DecidableEq

/-- The facets of `dtype_id` that `digital_rf_set_fill_value` reads. -/
structure H5Type where
  cls : H5Class
  signed : Bool
  size : ℕ
  order : H5Order
deriving Repr, DecidableEq

/-- The byte order of the host. -/
def hostOrder (littleHost : Bool) : H5Order := if littleHost then .le else .be

/-- The `endian_flip` computation (rf_write_hdf5.c:793-799): flip exactly
when the output order differs from the host order. -/
def endianFlip (littleHost : Bool) (order : H5Order) : Bool :=
  if littleHost ∧ order = .be then true
  else if ¬littleHost ∧ order = .le then true
  else false

/-- The C two-element fill arrays for the signed widths: entry 0 is the
width's minimum, entry 1 (`128`) is the value whose host bytes are the
byte-swapped minimum. -/
def signedFillPair (size : ℕ) : ℤ × ℤ :=
  match size with
  | 2 => (-32768, 128)
  | 4 => (-2147483648, 128)
  | _ => (-9223372036854775808, 128)

/-- Select from a C two-element array indexed by `endian_flip`. -/
def pickFlip (p : ℤ × ℤ) (flip : Bool) : ℤ := if flip then p.2 else p.1

/-- The little-endian byte list of `n` truncated to `w` bytes. -/
def bytesLE (w n : ℕ) : List ℕ := (List.range w).map (fun i => n / 256 ^ i % 256)

/-- Recompose a little-endian byte list into a number. -/
def fromBytesLE (l : List ℕ) : ℕ := l.foldr (fun b acc => b + 256 * acc) 0

/-- Reverse the `w`-byte representation of `n`. -/
def byteswap (w n : ℕ) : ℕ := fromBytesLE (bytesLE w n).reverse

/-- The `w`-byte two's-complement representation of an integer. -/
def toTwos (w : ℕ) (v : ℤ) : ℕ := (v % ((2 : ℤ) ^ (8 * w))).toNat

/-- The `w`-byte signed minimum. -/
def intMinOf (w : ℕ) : ℤ := -((2 : ℤ) ^ (8 * w - 1))

/-- The bit pattern of the glibc `NAN` double: the default quiet NaN
`0x7FF8000000000000`. -/
def nanBits64 : ℕ := 9221120237041090560

/-- The bit pattern of `(float)NAN`, the single-precision default quiet
NaN `0x7FC00000`. -/
def nanBits32 : ℕ := 2143289344

/-- The bytes of a `w`-byte object holding bit pattern `n`, in host memory
order. -/
def hostBytes (littleHost : Bool) (w n : ℕ) : List ℕ :=
  if littleHost then bytesLE w n else (bytesLE w n).reverse

/-- The `H5Pset_fill_value` copy: HDF5 stores `size` bytes read from the
address of the C object whose bytes are `buf`; a byte past the object's
end is an out-of-bounds read, modelled as `none`. -/
def h5FillBytes (buf : List ℕ) (size : ℕ) : List (Option ℕ) :=
  (List.range size).map (fun i => buf[i]?)

/-- Embedding of `digital_rf_set_fill_value` (rf_write_hdf5.c:721): the
branch structure mirrors the C if/switch chain; each `H5Pset_fill_value`
call becomes `h5FillBytes` of the passed object's host bytes, at the
dataset type's size (`dtype.size`, or `2 * dtype.size` for the compound
complex type). -/
def digital_rf_set_fill_value (littleHost : Bool) (dtype : H5Type)
    (is_complex : Bool) : Except DrfError (List (Option ℕ)) :=
  let flip := endianFlip littleHost dtype.order
  if dtype.cls = .float ∧ is_complex = false then
    .ok (h5FillBytes (hostBytes littleHost 8 nanBits64) dtype.size)
  else if dtype.cls = .float ∧ is_complex = true ∧ dtype.size = 4 then
    .ok (h5FillBytes (hostBytes littleHost 4 nanBits32 ++
          hostBytes littleHost 4 nanBits32) (2 * 4))
  else if dtype.cls = .float ∧ is_complex = true ∧ dtype.size = 8 then
    .ok (h5FillBytes (hostBytes littleHost 8 nanBits64 ++
          hostBytes littleHost 8 nanBits64) (2 * 8))
  else if dtype.cls = .integer then
    if is_complex = false then
      if dtype.signed = false then
        .ok (h5FillBytes (hostBytes littleHost 4 0) dtype.size)
      else if dtype.size = 1 then
        .ok (h5FillBytes (hostBytes littleHost 1 (toTwos 1 (-128))) 1)
      else if dtype.size = 2 then
        .ok (h5FillBytes (hostBytes littleHost 2
              (toTwos 2 (pickFlip (signedFillPair 2) flip))) 2)
      else if dtype.size = 4 then
        .ok (h5FillBytes (hostBytes littleHost 4
              (toTwos 4 (pickFlip (signedFillPair 4) flip))) 4)
      else if dtype.size = 8 then
        .ok (h5FillBytes (hostBytes littleHost 8
              (toTwos 8 (pickFlip (signedFillPair 8) flip))) 8)
      else .error .typeUnsupported
    else
      if dtype.size = 1 then
        if dtype.signed = false then
          .ok (h5FillBytes (hostBytes littleHost 1 0 ++ hostBytes littleHost 1 0) (2 * 1))
        else
          .ok (h5FillBytes (hostBytes littleHost 1 (toTwos 1 (-128)) ++
                hostBytes littleHost 1 (toTwos 1 (-128))) (2 * 1))
      else if dtype.size = 2 then
        if dtype.signed = false then
          .ok (h5FillBytes (hostBytes littleHost 2 0 ++ hostBytes littleHost 2 0) (2 * 2))
        else
          .ok (h5FillBytes (hostBytes littleHost 2
                (toTwos 2 (pickFlip (signedFillPair 2) flip)) ++
                hostBytes littleHost 2
                (toTwos 2 (pickFlip (signedFillPair 2) flip))) (2 * 2))
      else if dtype.size = 4 then
        if dtype.signed = false then
          .ok (h5FillBytes (hostBytes littleHost 4 0 ++ hostBytes littleHost 4 0) (2 * 4))
        else
          .ok (h5FillBytes (hostBytes littleHost 4
                (toTwos 4 (pickFlip (signedFillPair 4) flip)) ++
                hostBytes littleHost 4
                (toTwos 4 (pickFlip (signedFillPair 4) flip))) (2 * 4))
      else if dtype.size = 8 then
        if dtype.signed = false then
          .ok (h5FillBytes (hostBytes littleHost 8 0 ++ hostBytes littleHost 8 0) (2 * 8))
        else
          .ok (h5FillBytes (hostBytes littleHost 8
                (toTwos 8 (pickFlip (signedFillPair 8) flip)) ++
                hostBytes littleHost 8
                (toTwos 8 (pickFlip (signedFillPair 8) flip))) (2 * 8))
      else .error .typeUnsupported
  else .error .typeUnsupported

/-!  Specification-side vocabulary used by the claim statements. -/

/-- The emission condition of the Gap Index Builder: a pair `(g, b)` is
emitted for the slice `[first_index, end_index)` iff its buffer position
is in range and it is not a suppressed continuation (`b` exactly at the
slice start while the file is mid-flight and the global cursor already
equals `g`). -/
def emitP (o : Drf) (first_index end_index : ℕ) (p : ℕ × ℕ) : Bool :=
  decide (first_index ≤ p.2 ∧ p.2 < end_index ∧
          ¬(p.2 = first_index ∧ 0 < o.dataset_index ∧ o.global_index = p.1))

/-- The row emitted for pair `p`: global column `g + epoch`, in-file
column `b + in_file_cursor - samples_written`. -/
def rowOf (o : Drf) (sw : ℕ) (p : ℕ × ℕ) : ℕ × ℕ :=
  (p.1 + o.global_start_sample, p.2 + o.dataset_index - sw)

/-- The synthetic boundary row `(next_expected_global + epoch, 0)`. -/
def synthRow (o : Drf) : ℕ × ℕ := (o.global_index + o.global_start_sample, 0)

/-- The pairwise condition checked by the counting pass: in-buffer
indices strictly increase and advance no faster than the globals, the
global advance being the `uint64_t` difference. -/
def chainRelU (p q : ℕ × ℕ) : Prop := p.2 < q.2 ∧ q.2 - p.2 ≤ usub64 q.1 p.1

/-- The producer contract of the spec: both arrays strictly increasing
and the in-buffer advance bounded by the (mathematical) global
advance. -/
def chainRelM (p q : ℕ × ℕ) : Prop := p.2 < q.2 ∧ p.1 < q.1 ∧ q.2 - p.2 ≤ q.1 - p.1

/-- The well-formedness invariant maintained between slices: positive
file capacity; while a file is open, cursor plus remaining capacity
equals the capacity and some room remains; with no file open the cursor
is zero. -/
def GoodState (o : Drf) : Prop :=
  0 < o.samples_per_file ∧
  (o.file_open = true → o.dataset_index + o.dataset_avail = o.samples_per_file ∧
    0 < o.dataset_avail) ∧
  (o.file_open = false → o.dataset_index = 0)

/-!  Concrete channel states used by the witness instances below. -/

/-- A freshly initialised channel: 3 samples per file, 2 files per
directory, epoch sample 100, rate 1 Hz, nothing written yet. -/
def drfFresh : Drf :=
  { directory := "d/", samples_per_file := 3, files_per_directory := 2,
    global_start_sample := 100, sample_rate := 1, needs_chunking := false,
    chunk_size := 0, global_index := 0, present_seq := -1, dataset_index := 0,
    dataset_avail := 0, next_index_avail := 0, file_open := false,
    sub_directory := none, dirs := [], files := [] }

/-- A mid-file channel state: a file is open, 3 of its 10 rows written,
the global cursor at 5. -/
def drfMid : Drf :=
  { drfFresh with
      samples_per_file := 10, file_open := true,
      dataset_index := 3, dataset_avail := 7, global_index := 5 }

/-- The fresh channel with a capacity of 10 samples per file. -/
def drfTen : Drf := { drfFresh with samples_per_file := 10 }

/-- The fresh channel with the global cursor already advanced to 5. -/
def drfAhead : Drf := { drfFresh with global_index := 5 }

/-!  Structural characterization of the fill pass. -/

theorem rf_index_pass2_acc_ne (o : Drf) (f e sw : ℕ) (pairs : List (ℕ × ℕ))
    (acc : List (ℕ × ℕ)) (hacc : acc ≠ []) :
    rf_index_pass2 o f e sw pairs acc =
      acc ++ (pairs.filter (emitP o f e)).map (rowOf o sw) := by
  induction pairs generalizing acc with
  | nil =>
      simp [rf_index_pass2, List.length_eq_zero, hacc]
  | cons p rest ih =>
      obtain ⟨g, b⟩ := p
      by_cases hsup : b = f ∧ 0 < o.dataset_index ∧ o.global_index = g
      · have hemit : emitP o f e (g, b) = false := by
          simp only [emitP, decide_eq_false_iff_not]
          intro hcon
          exact hcon.2.2 hsup
        simp only [rf_index_pass2, if_pos hsup, List.filter_cons, hemit]
        simpa using ih acc hacc
      · by_cases hrange : f ≤ b ∧ b < e
        · have hemit : emitP o f e (g, b) = true := by
            simp only [emitP, decide_eq_true_eq]
            exact ⟨hrange.1, hrange.2, fun hc => hsup hc⟩
          by_cases hbf : b = f
          · simp only [rf_index_pass2, if_neg hsup, if_pos hrange, if_pos hbf,
              List.filter_cons, hemit]
            rw [ih _ (by simp)]
            simp [rowOf]
          · have hlen : acc.length ≠ 0 := by simpa using hacc
            simp only [rf_index_pass2, if_neg hsup, if_pos hrange, if_neg hbf,
              List.filter_cons, hemit, if_neg hlen]
            rw [ih _ (by simp [hacc])]
            simp [rowOf]
        · have hemit : emitP o f e (g, b) = false := by
            simp only [emitP, decide_eq_false_iff_not]
            intro hcon
            exact hrange ⟨hcon.1, hcon.2.1⟩
          simp only [rf_index_pass2, if_neg hsup, if_neg hrange, List.filter_cons, hemit]
          simpa using ih acc hacc

theorem rf_index_pass2_nil_acc (o : Drf) (f e sw : ℕ) (pairs : List (ℕ × ℕ)) :
    rf_index_pass2 o f e sw pairs [] =
      match pairs.filter (emitP o f e) with
      | [] => [synthRow o]
      | q :: qs =>
          (if q.2 = f then [] else [synthRow o]) ++ ((q :: qs).map (rowOf o sw)) := by
  induction pairs with
  | nil => simp [rf_index_pass2, synthRow]
  | cons p rest ih =>
      obtain ⟨g, b⟩ := p
      by_cases hsup : b = f ∧ 0 < o.dataset_index ∧ o.global_index = g
      · have hemit : emitP o f e (g, b) = false := by
          simp only [emitP, decide_eq_false_iff_not]
          intro hcon
          exact hcon.2.2 hsup
        simp only [rf_index_pass2, if_pos hsup, List.filter_cons, hemit]
        simpa using ih
      · by_cases hrange : f ≤ b ∧ b < e
        · have hemit : emitP o f e (g, b) = true := by
            simp only [emitP, decide_eq_true_eq]
            exact ⟨hrange.1, hrange.2, fun hc => hsup hc⟩
          by_cases hbf : b = f
          · simp only [rf_index_pass2, if_neg hsup, if_pos hrange, if_pos hbf,
              List.filter_cons, hemit]
            rw [rf_index_pass2_acc_ne o f e sw rest _ (by simp)]
            simp [rowOf, hbf]
          · simp only [rf_index_pass2, if_neg hsup, if_pos hrange, if_neg hbf,
              List.filter_cons, hemit]
            rw [rf_index_pass2_acc_ne o f e sw rest _ (by simp)]
            simp [rowOf, hbf, synthRow]
        · have hemit : emitP o f e (g, b) = false := by
            simp only [emitP, decide_eq_false_iff_not]
            intro hcon
            exact hrange ⟨hcon.1, hcon.2.1⟩
          simp only [rf_index_pass2, if_neg hsup, if_neg hrange, List.filter_cons, hemit]
          simpa using ih

theorem rf_index_pass1_ok_of_chain (o : Drf) (f e : ℕ) (pairs : List (ℕ × ℕ))
    (prev : Option (ℕ × ℕ)) (ff : Bool) (cnt : ℕ)
    (hchain : List.Chain' chainRelU (prev.toList ++ pairs)) :
    rf_index_pass1 o f e pairs prev ff cnt =
      .ok (ff || pairs.any (fun p => decide (p.2 = f)),
           cnt + (pairs.filter (emitP o f e)).length) := by
  induction pairs generalizing prev ff cnt with
  | nil => simp [rf_index_pass1]
  | cons p rest ih =>
      obtain ⟨g, b⟩ := p
      have htail : List.Chain' chainRelU ((g, b) :: rest) := by
        rcases prev with _ | pv
        · simpa using hchain
        · simp only [Option.toList, List.singleton_append] at hchain
          exact (List.chain'_cons.mp hchain).2
      have hrec := ih (some (g, b)) (ff || decide (b = f))
        (cnt + if f ≤ b ∧ b < e ∧ ¬(b = f ∧ 0 < o.dataset_index ∧ o.global_index = g)
               then 1 else 0)
        (by simpa using htail)
      have hbool : ((ff || decide (b = f)) || rest.any (fun p => decide (p.2 = f))) =
          (ff || ((g, b) :: rest).any (fun p => decide (p.2 = f))) := by
        simp [Bool.or_assoc]
      have hnat : (cnt + (if f ≤ b ∧ b < e ∧
            ¬(b = f ∧ 0 < o.dataset_index ∧ o.global_index = g) then 1 else 0)) +
            (rest.filter (emitP o f e)).length =
          cnt + (((g, b) :: rest).filter (emitP o f e)).length := by
        by_cases hc : f ≤ b ∧ b < e ∧ ¬(b = f ∧ 0 < o.dataset_index ∧ o.global_index = g)
        · have hemit : emitP o f e (g, b) = true := by
            simp only [emitP, decide_eq_true_eq]; exact hc
          simp only [List.filter_cons, hemit, if_pos, if_true, List.length_cons, if_pos hc]
          omega
        · have hemit : emitP o f e (g, b) = false := by
            simp only [emitP, decide_eq_false_iff_not]; exact hc
          simp only [List.filter_cons, hemit, Bool.false_eq_true, if_false, if_neg hc]
          omega
      rcases prev with _ | ⟨gp, bp⟩
      · rw [rf_index_pass1, hrec, hbool, hnat]
      · simp only [Option.toList, List.singleton_append] at hchain
        have hrel := (List.chain'_cons.mp hchain).1
        simp only [chainRelU] at hrel
        obtain ⟨hlt, hadv⟩ := hrel
        rw [rf_index_pass1, if_neg (by omega), if_neg (by omega), hrec, hbool, hnat]

theorem rf_index_pass1_ok_chain (o : Drf) (f e : ℕ) (pairs : List (ℕ × ℕ))
    (prev : Option (ℕ × ℕ)) (ff : Bool) (cnt : ℕ) (x : Bool × ℕ)
    (hok : rf_index_pass1 o f e pairs prev ff cnt = .ok x) :
    List.Chain' chainRelU (prev.toList ++ pairs) := by
  induction pairs generalizing prev ff cnt with
  | nil =>
      rcases prev with _ | pv <;> simp
  | cons p rest ih =>
      obtain ⟨g, b⟩ := p
      rcases prev with _ | ⟨gp, bp⟩
      · rw [rf_index_pass1] at hok
        simpa using ih _ _ _ hok
      · rw [rf_index_pass1] at hok
        by_cases h1 : b ≤ bp
        · rw [if_pos h1] at hok; exact absurd hok (by simp)
        · rw [if_neg h1] at hok
          by_cases h2 : usub64 g gp < b - bp
          · rw [if_pos h2] at hok; exact absurd hok (by simp)
          · rw [if_neg h2] at hok
            have htail := ih _ _ _ hok
            simp only [Option.toList, List.singleton_append] at htail ⊢
            refine List.chain'_cons.mpr ⟨?_, by simpa using htail⟩
            simp only [chainRelU]
            omega

theorem rf_index_pass1_err_kind (o : Drf) (f e : ℕ) (pairs : List (ℕ × ℕ))
    (prev : Option (ℕ × ℕ)) (ff : Bool) (cnt : ℕ) (er : DrfError)
    (herr : rf_index_pass1 o f e pairs prev ff cnt = .error er) :
    er = .indexOutOfOrder ∨ er = .indexTooFast := by
  induction pairs generalizing prev ff cnt with
  | nil => rw [rf_index_pass1] at herr; exact absurd herr (by simp)
  | cons p rest ih =>
      obtain ⟨g, b⟩ := p
      rcases prev with _ | ⟨gp, bp⟩
      · rw [rf_index_pass1] at herr
        exact ih _ _ _ herr
      · rw [rf_index_pass1] at herr
        by_cases h1 : b ≤ bp
        · rw [if_pos h1] at herr
          injection herr with h
          exact Or.inl h.symm
        · rw [if_neg h1] at herr
          by_cases h2 : usub64 g gp < b - bp
          · rw [if_pos h2] at herr
            injection herr with h
            exact Or.inr h.symm
          · rw [if_neg h2] at herr
            exact ih _ _ _ herr

theorem create_rf_data_index_char (o : Drf) (sw : ℕ) (pairs : List (ℕ × ℕ))
    (hchain : List.Chain' chainRelU pairs)
    (hmin : ¬(sw = 0 ∧ (pairs.headD (0, 0)).1 < o.global_index)) :
    digital_rf_create_rf_data_index o sw pairs =
      (let e := sw + o.samples_per_file - o.dataset_index
       let q := pairs.filter (emitP o sw e)
       let ff := pairs.any (fun p => decide (p.2 = sw))
       if q = [] then (if ff then .ok [] else .ok [synthRow o])
       else if (q.headD (0, 0)).2 = sw then .ok (q.map (rowOf o sw))
       else if ff then .error .assertFailed
       else .ok (synthRow o :: q.map (rowOf o sw))) := by
  simp only [digital_rf_create_rf_data_index]
  rw [if_neg hmin]
  rw [rf_index_pass1_ok_of_chain o sw _ pairs none false 0 (by simpa using hchain)]
  simp only [Nat.zero_add]
  rw [rf_index_pass2_nil_acc]
  set e := sw + o.samples_per_file - o.dataset_index with he
  set q := pairs.filter (emitP o sw e) with hqdef
  set ff := pairs.any (fun p => decide (p.2 = sw)) with hffdef
  match hq : q with
  | [] =>
      cases hff : ff with
      | true => simp
      | false => simp
  | q0 :: qs =>
      have hmemq : q0 ∈ List.filter (emitP o sw e) pairs := by
        rw [← hqdef]; exact List.mem_cons_self _ _
      have hq0pairs : q0 ∈ pairs := (List.mem_filter.mp hmemq).1
      by_cases hq0f : q0.2 = sw
      · have hff : ff = true := by
          rw [hffdef, List.any_eq_true]
          exact ⟨q0, hq0pairs, by simp [hq0f]⟩
        rw [hff]
        simp [hq0f]
      · cases hff : ff with
        | true =>
            simp [hq0f, List.length_cons]
        | false =>
            simp [hq0f, List.length_cons]

theorem create_new_directory_fields (o : Drf) (g : ℕ) :
    (digital_rf_create_new_directory o g).1.global_index = o.global_index ∧
    (digital_rf_create_new_directory o g).1.global_start_sample = o.global_start_sample ∧
    (digital_rf_create_new_directory o g).1.samples_per_file = o.samples_per_file ∧
    (digital_rf_create_new_directory o g).1.file_open = o.file_open ∧
    (digital_rf_create_new_directory o g).1.dataset_index = o.dataset_index ∧
    (digital_rf_create_new_directory o g).1.dataset_avail = o.dataset_avail ∧
    (digital_rf_create_new_directory o g).1.files = o.files ∧
    (digital_rf_create_new_directory o g).1.present_seq = o.present_seq ∧
    (digital_rf_create_new_directory o g).1.next_index_avail = o.next_index_avail := by
  unfold digital_rf_create_new_directory
  cases drfSubdirName o g with
  | none => simp
  | some sub => by_cases h : (o.directory ++ sub) ∈ o.dirs <;> simp [h]

theorem drf_open_file_fields (o : Drf) (g : ℕ) :
    (drfOpenFileInSubdir o g).1.global_index = o.global_index ∧
    (drfOpenFileInSubdir o g).1.global_start_sample = o.global_start_sample ∧
    (drfOpenFileInSubdir o g).1.samples_per_file = o.samples_per_file ∧
    (drfOpenFileInSubdir o g).1.present_seq = o.present_seq ∧
    ((drfOpenFileInSubdir o g).2 = .ok () →
      (drfOpenFileInSubdir o g).1.file_open = true ∧
      (drfOpenFileInSubdir o g).1.dataset_index = 0 ∧
      (drfOpenFileInSubdir o g).1.dataset_avail = o.samples_per_file ∧
      ∃ fr : DrfFileRec, (drfOpenFileInSubdir o g).1.files = o.files ++ [fr] ∧
        fr.rf_data = [] ∧ fr.rf_data_index = []) := by
  by_cases h : ((o.files.map DrfFileRec.name).contains (drfFullFileName o g) : Prop)
  · have hres : drfOpenFileInSubdir o g = (o, .error .fileCreateFailed) := by
      unfold drfOpenFileInSubdir
      rw [if_pos h]
    rw [hres]
    exact ⟨rfl, rfl, rfl, rfl, fun hcon => absurd hcon (by simp)⟩
  · have hres : drfOpenFileInSubdir o g =
        ({ o with
             files := o.files ++ [{ name := drfFullFileName o g, seq := o.present_seq,
                                     rf_data := [], rf_data_index := [] }],
             file_open := true, dataset_index := 0,
             dataset_avail := o.samples_per_file }, .ok ()) := by
      unfold drfOpenFileInSubdir
      rw [if_neg h]
    rw [hres]
    exact ⟨rfl, rfl, rfl, rfl, fun _ => ⟨rfl, rfl, rfl, _, rfl, rfl, rfl⟩⟩

theorem create_hdf5_file_cases (o : Drf) (g : ℕ) :
    digital_rf_create_hdf5_file o g =
      (let o1 : Drf := { o with present_seq := o.present_seq + 1 }
       if (o.present_seq + 1) % (o.files_per_directory : ℤ) = 0 then
         match digital_rf_create_new_directory o1 g with
         | (o2, .error e) => (o2, .error e)
         | (o2, .ok _) => drfOpenFileInSubdir o2 g
       else drfOpenFileInSubdir o1 g) := by
  rfl

theorem create_hdf5_file_spec (o : Drf) (g : ℕ) :
    (digital_rf_create_hdf5_file o g).1.global_index = o.global_index ∧
    (digital_rf_create_hdf5_file o g).1.global_start_sample = o.global_start_sample ∧
    (digital_rf_create_hdf5_file o g).1.samples_per_file = o.samples_per_file ∧
    (digital_rf_create_hdf5_file o g).1.present_seq = o.present_seq + 1 ∧
    ((digital_rf_create_hdf5_file o g).2 = .ok () →
      (digital_rf_create_hdf5_file o g).1.file_open = true ∧
      (digital_rf_create_hdf5_file o g).1.dataset_index = 0 ∧
      (digital_rf_create_hdf5_file o g).1.dataset_avail = o.samples_per_file ∧
      ∃ fr : DrfFileRec, (digital_rf_create_hdf5_file o g).1.files = o.files ++ [fr] ∧
        fr.rf_data = [] ∧ fr.rf_data_index = []) := by
  rw [create_hdf5_file_cases]
  simp only
  by_cases hc : (o.present_seq + 1) % (o.files_per_directory : ℤ) = 0
  · rw [if_pos hc]
    obtain ⟨d1, d2, d3, d4, d5, d6, d7, d8, d9⟩ :=
      create_new_directory_fields { o with present_seq := o.present_seq + 1 } g
    cases hres : digital_rf_create_new_directory { o with present_seq := o.present_seq + 1 } g with
    | mk o2 r =>
        rw [hres] at d1 d2 d3 d4 d5 d6 d7 d8 d9
        simp only at d1 d2 d3 d4 d5 d6 d7 d8 d9
        cases r with
        | error er =>
            simp only
            exact ⟨d1, d2, d3, d8, fun hcon => absurd hcon (by simp)⟩
        | ok u =>
            cases u
            simp only
            obtain ⟨p1, p2, p3, p4, p5⟩ := drf_open_file_fields o2 g
            refine ⟨by rw [p1, d1], by rw [p2, d2], by rw [p3, d3], by rw [p4, d8], ?_⟩
            intro hok
            obtain ⟨q1, q2, q3, q4⟩ := p5 hok
            refine ⟨q1, q2, by rw [q3, d3], ?_⟩
            obtain ⟨fr, hf1, hf2, hf3⟩ := q4
            exact ⟨fr, by rw [hf1, d7], hf2, hf3⟩
  · rw [if_neg hc]
    obtain ⟨p1, p2, p3, p4, p5⟩ :=
      drf_open_file_fields { o with present_seq := o.present_seq + 1 } g
    refine ⟨by rw [p1], by rw [p2], by rw [p3], by rw [p4], ?_⟩
    intro hok
    obtain ⟨q1, q2, q3, q4⟩ := p5 hok
    exact ⟨q1, q2, by rw [q3], q4⟩

theorem dropLast_getLast_map (l : List DrfFileRec) (f : DrfFileRec → DrfFileRec) :
    (l.dropLast ++ (l.getLast?.map f).toList).getLast? = l.getLast?.map f := by
  induction l using List.reverseRecOn with
  | nil => simp
  | append_singleton as a _ => simp

theorem updateLastFile_getLast (o : Drf) (f : DrfFileRec → DrfFileRec) :
    (updateLastFile o f).files.getLast? = o.files.getLast?.map f :=
  dropLast_getLast_map o.files f

theorem slice_body_spec (o1 : Drf) (sw : ℕ) (rows : List (ℕ × ℕ)) (v : List ℕ) (vlen : ℕ) :
    (drfWriteSliceBody o1 sw rows v vlen).2 = min (vlen - sw) o1.dataset_avail ∧
    (drfWriteSliceBody o1 sw rows v vlen).1.samples_per_file = o1.samples_per_file ∧
    (drfWriteSliceBody o1 sw rows v vlen).1.global_start_sample = o1.global_start_sample ∧
    (drfWriteSliceBody o1 sw rows v vlen).1.dataset_avail =
      o1.dataset_avail - min (vlen - sw) o1.dataset_avail ∧
    (rows = [] → (drfWriteSliceBody o1 sw rows v vlen).1.global_index =
      o1.global_index + min (vlen - sw) o1.dataset_avail) ∧
    (∀ h : rows ≠ [], (drfWriteSliceBody o1 sw rows v vlen).1.global_index =
       wrap64 (usub64 (rows.getLast h).1 o1.global_start_sample +
               usub64 (min (vlen - sw) o1.dataset_avail)
                 (usub64 (rows.getLast h).2 (rows.head h).2))) ∧
    (if o1.dataset_index + min (vlen - sw) o1.dataset_avail = o1.samples_per_file
     then (drfWriteSliceBody o1 sw rows v vlen).1.file_open = false ∧
          (drfWriteSliceBody o1 sw rows v vlen).1.dataset_index = 0
     else (drfWriteSliceBody o1 sw rows v vlen).1.file_open = o1.file_open ∧
          (drfWriteSliceBody o1 sw rows v vlen).1.dataset_index =
            o1.dataset_index + min (vlen - sw) o1.dataset_avail) := by
  cases rows with
  | nil =>
      by_cases hcl : o1.dataset_index + min (vlen - sw) o1.dataset_avail = o1.samples_per_file
      · refine ⟨?_, ?_, ?_, ?_, ?_, ?_, ?_⟩ <;>
          simp [drfWriteSliceBody, updateLastFile, hcl]
      · refine ⟨?_, ?_, ?_, ?_, ?_, ?_, ?_⟩ <;>
          simp [drfWriteSliceBody, updateLastFile, hcl]
  | cons r0 rrest =>
      by_cases hcl : o1.dataset_index + min (vlen - sw) o1.dataset_avail = o1.samples_per_file
      · refine ⟨?_, ?_, ?_, ?_, ?_, ?_, ?_⟩ <;>
          simp [drfWriteSliceBody, updateLastFile, digital_rf_write_rf_data_index, hcl]
      · refine ⟨?_, ?_, ?_, ?_, ?_, ?_, ?_⟩ <;>
          simp [drfWriteSliceBody, updateLastFile, digital_rf_write_rf_data_index, hcl]

theorem slice_body_files (o1 : Drf) (sw : ℕ) (rows : List (ℕ × ℕ)) (v : List ℕ) (vlen : ℕ)
    (h : rows ≠ []) :
    (drfWriteSliceBody o1 sw rows v vlen).1.files.getLast? =
      o1.files.getLast?.map (fun fr =>
        { fr with
            rf_data := fr.rf_data ++ (v.drop sw).take (min (vlen - sw) o1.dataset_avail),
            rf_data_index := fr.rf_data_index ++ rows }) := by
  cases rows with
  | nil => exact absurd rfl h
  | cons r0 rrest =>
      have hfiles : (drfWriteSliceBody o1 sw (r0 :: rrest) v vlen).1.files =
          (digital_rf_write_rf_data_index
            (updateLastFile o1 (fun fr =>
              { fr with rf_data :=
                  fr.rf_data ++ (v.drop sw).take (min (vlen - sw) o1.dataset_avail) }))
            (r0 :: rrest)).files := by
        by_cases hcl : o1.dataset_index + min (vlen - sw) o1.dataset_avail = o1.samples_per_file <;>
          simp [drfWriteSliceBody, updateLastFile, digital_rf_write_rf_data_index, hcl]
      rw [hfiles]
      have h1 : (digital_rf_write_rf_data_index
            (updateLastFile o1 (fun fr =>
              { fr with rf_data :=
                  fr.rf_data ++ (v.drop sw).take (min (vlen - sw) o1.dataset_avail) }))
            (r0 :: rrest)).files.getLast? =
          ((updateLastFile o1 (fun fr =>
              { fr with rf_data :=
                  fr.rf_data ++ (v.drop sw).take (min (vlen - sw) o1.dataset_avail) })).files.getLast?).map
            (fun fr => { fr with rf_data_index := fr.rf_data_index ++ (r0 :: rrest) }) := by
        exact updateLastFile_getLast _ _
      rw [h1, updateLastFile_getLast, Option.map_map]
      rfl

theorem chainM_le (g0 b0 : ℕ) (rest : List (ℕ × ℕ))
    (hchain : List.Chain' chainRelM ((g0, b0) :: rest)) :
    ∀ p ∈ (g0, b0) :: rest, b0 ≤ p.2 ∧ g0 + (p.2 - b0) ≤ p.1 := by
  induction rest generalizing g0 b0 with
  | nil =>
      intro p hp
      have : p = (g0, b0) := by simpa using hp
      subst this
      simp
  | cons q rest ih =>
      intro p hp
      have hrel := (List.chain'_cons.mp hchain).1
      have htail := (List.chain'_cons.mp hchain).2
      rcases List.mem_cons.mp hp with hph | hp'
      · subst hph; simp
      · obtain ⟨g1, b1⟩ := q
        obtain ⟨hb1, hg1⟩ := ih g1 b1 htail p hp'
        simp only [chainRelM] at hrel
        exact ⟨by omega, by omega⟩

theorem getLast_map_pair (f : ℕ × ℕ → ℕ × ℕ) (l : List (ℕ × ℕ)) (h : l ≠ [])
    (h2 : l.map f ≠ []) : (l.map f).getLast h2 = f (l.getLast h) := by
  simp

theorem create_rf_data_index_ok_chain (o : Drf) (sw : ℕ) (pairs : List (ℕ × ℕ))
    (rows : List (ℕ × ℕ))
    (h : digital_rf_create_rf_data_index o sw pairs = .ok rows) :
    List.Chain' chainRelU pairs ∧ ¬(sw = 0 ∧ (pairs.headD (0, 0)).1 < o.global_index) := by
  unfold digital_rf_create_rf_data_index at h
  by_cases hmin : sw = 0 ∧ (pairs.headD (0, 0)).1 < o.global_index
  · rw [if_pos hmin] at h
    exact absurd h (by simp)
  · rw [if_neg hmin] at h
    cases hp : rf_index_pass1 o sw (sw + o.samples_per_file - o.dataset_index) pairs none false 0 with
    | error e => rw [hp] at h; exact absurd h (by simp)
    | ok x =>
        have := rf_index_pass1_ok_chain o sw _ pairs none false 0 x hp
        exact ⟨by simpa using this, hmin⟩

theorem write_samples_ok_parts (o : Drf) (sw : ℕ) (pairs : List (ℕ × ℕ))
    (v : List ℕ) (vlen : ℕ) (o' : Drf) (n : ℕ)
    (hrun : digital_rf_write_samples_to_file o sw pairs v vlen = (o', .ok n)) :
    1 ≤ pairs.length ∧ (pairs.headD (0, 0)).2 = 0 ∧
    ∃ rows o1, digital_rf_create_rf_data_index o sw pairs = .ok rows ∧
      ((o.file_open = true ∧ o1 = o) ∨
       (o.file_open = false ∧
        digital_rf_create_hdf5_file o (digital_rf_get_global_sample sw pairs) = (o1, .ok ()))) ∧
      o' = (drfWriteSliceBody o1 sw rows v vlen).1 ∧
      n = (drfWriteSliceBody o1 sw rows v vlen).2 := by
  unfold digital_rf_write_samples_to_file at hrun
  by_cases h1 : pairs.length < 1
  · rw [if_pos h1] at hrun; exact absurd hrun (by simp)
  · rw [if_neg h1] at hrun
    by_cases h2 : (pairs.headD (0, 0)).2 ≠ 0
    · rw [if_pos h2] at hrun; exact absurd hrun (by simp)
    · rw [if_neg h2] at hrun
      refine ⟨by omega, by omega, ?_⟩
      cases hidx : digital_rf_create_rf_data_index o sw pairs with
      | error e => rw [hidx] at hrun; exact absurd hrun (by simp)
      | ok rows =>
          rw [hidx] at hrun
          cases hopen : o.file_open with
          | true =>
              rw [hopen] at hrun
              simp at hrun
              exact ⟨rows, o, rfl, Or.inl ⟨rfl, rfl⟩, hrun.1.symm, hrun.2.symm⟩
          | false =>
              rw [hopen] at hrun
              cases hcr : digital_rf_create_hdf5_file o
                  (digital_rf_get_global_sample sw pairs) with
              | mk o1 r =>
                  rw [hcr] at hrun
                  cases r with
                  | error e => simp at hrun
                  | ok u =>
                      cases u
                      simp at hrun
                      exact ⟨rows, o1, rfl, Or.inr ⟨rfl, rfl⟩, hrun.1.symm, hrun.2.symm⟩

theorem slice_o1_facts (o : Drf) (sw : ℕ) (pairs : List (ℕ × ℕ)) (o1 : Drf)
    (hgood : GoodState o)
    (hopencase : (o.file_open = true ∧ o1 = o) ∨
       (o.file_open = false ∧
        digital_rf_create_hdf5_file o (digital_rf_get_global_sample sw pairs) = (o1, .ok ()))) :
    o1.global_index = o.global_index ∧ o1.global_start_sample = o.global_start_sample ∧
    o1.samples_per_file = o.samples_per_file ∧ o1.dataset_index = o.dataset_index ∧
    o1.file_open = true ∧ o1.dataset_index + o1.dataset_avail = o.samples_per_file ∧
    1 ≤ o1.dataset_avail := by
  rcases hopencase with ⟨hop, rfl⟩ | ⟨hop, hcr⟩
  · have h2 := hgood.2.1 hop
    exact ⟨rfl, rfl, rfl, rfl, hop, h2.1, h2.2⟩
  · obtain ⟨c1, c2, c3, c4, c5⟩ := create_hdf5_file_spec o (digital_rf_get_global_sample sw pairs)
    rw [hcr] at c1 c2 c3 c5
    simp only at c1 c2 c3 c5
    have hok := c5 trivial
    have hdio : o.dataset_index = 0 := hgood.2.2 hop
    refine ⟨c1, c2, c3, ?_, hok.1, ?_, ?_⟩
    · rw [hok.2.1, hdio]
    · rw [hok.2.1, hok.2.2.1]; omega
    · rw [hok.2.2.1]; exact hgood.1

theorem write_samples_slice_basic
    (o : Drf) (sw : ℕ) (pairs : List (ℕ × ℕ)) (v : List ℕ) (vlen : ℕ) (o' : Drf) (n : ℕ)
    (hgood : GoodState o) (hswlt : sw < vlen)
    (hrun : digital_rf_write_samples_to_file o sw pairs v vlen = (o', .ok n)) :
    GoodState o' ∧ o'.samples_per_file = o.samples_per_file ∧
    o'.global_start_sample = o.global_start_sample ∧
    1 ≤ n ∧ sw + n ≤ vlen ∧
    (sw + n < vlen → o'.file_open = false ∧ o'.dataset_index = 0) := by
  obtain ⟨hlen, hb0, rows, o1, hidx, hopencase, ho', hn⟩ :=
    write_samples_ok_parts o sw pairs v vlen o' n hrun
  obtain ⟨f1, f2, f3, f4, f5, f6, f7⟩ := slice_o1_facts o sw pairs o1 hgood hopencase
  obtain ⟨b1, b2, b3, b4, b5, b6, b7⟩ := slice_body_spec o1 sw rows v vlen
  rw [← ho'] at b2 b3 b4 b7
  have hnval : n = min (vlen - sw) o1.dataset_avail := hn.trans b1
  by_cases hcl : o1.dataset_index + min (vlen - sw) o1.dataset_avail = o1.samples_per_file
  · rw [if_pos hcl] at b7
    obtain ⟨bo, bd⟩ := b7
    refine ⟨⟨?_, ?_, ?_⟩, b2.trans f3, b3.trans f2, by omega, by omega, ?_⟩
    · rw [b2.trans f3]; exact hgood.1
    · intro hopen'; rw [bo] at hopen'; exact absurd hopen' (by simp)
    · intro; exact bd
    · intro; exact ⟨bo, bd⟩
  · rw [if_neg hcl] at b7
    obtain ⟨bo, bd⟩ := b7
    have hopen' : o'.file_open = true := bo.trans f5
    refine ⟨⟨?_, ?_, ?_⟩, b2.trans f3, b3.trans f2, by omega, by omega, ?_⟩
    · rw [b2.trans f3]; exact hgood.1
    · intro
      constructor
      · rw [bd, b2, b4]; omega
      · rw [b4]; omega
    · intro hcon; rw [hopen'] at hcon; exact absurd hcon (by simp)
    · intro hlt
      exfalso
      have : n < vlen - sw := by omega
      have : n = o1.dataset_avail := by omega
      omega

theorem usub64_self_le (a b : ℕ) (h : b ≤ a) : usub64 a b = a - b := by
  unfold usub64; rw [if_pos h]

theorem wrap64_small (a : ℕ) (h : a < U64MOD) : wrap64 a = a := by
  unfold wrap64; exact Nat.mod_eq_of_lt h

theorem slice_last_pair_calc
    (o o1 o' : Drf) (sw n : ℕ) (qlast : ℕ × ℕ) (headcol : ℕ)
    (f2 : o1.global_start_sample = o.global_start_sample)
    (hhc : headcol = o.dataset_index)
    (hswle : sw ≤ qlast.2) (hlt : qlast.2 < sw + n)
    (hgq : qlast.1 + n < U64MOD)
    (hgival : o'.global_index =
      wrap64 (usub64 (qlast.1 + o.global_start_sample) o1.global_start_sample +
              usub64 n (usub64 (qlast.2 + o.dataset_index - sw) headcol))) :
    o.dataset_index ≤ qlast.2 + o.dataset_index - sw ∧
    (qlast.2 + o.dataset_index - sw) - o.dataset_index ≤ n ∧
    o.global_start_sample ≤ qlast.1 + o.global_start_sample ∧
    o'.global_index + ((qlast.2 + o.dataset_index - sw) - o.dataset_index) =
      ((qlast.1 + o.global_start_sample) - o.global_start_sample) + n ∧
    o'.global_index = qlast.1 + (n - (qlast.2 - sw)) := by
  subst hhc
  rw [f2] at hgival
  have eA : usub64 (qlast.1 + o.global_start_sample) o.global_start_sample = qlast.1 := by
    rw [usub64_self_le _ _ (by omega)]; omega
  have eB : usub64 (qlast.2 + o.dataset_index - sw) o.dataset_index = qlast.2 - sw := by
    rw [usub64_self_le _ _ (by omega)]; omega
  have eC : usub64 n (qlast.2 - sw) = n - (qlast.2 - sw) := usub64_self_le _ _ (by omega)
  rw [eA, eB, eC, wrap64_small _ (by omega)] at hgival
  refine ⟨by omega, by omega, by omega, by omega, hgival⟩

theorem write_samples_slice_global
    (o : Drf) (sw : ℕ) (pairs : List (ℕ × ℕ)) (v : List ℕ) (vlen : ℕ) (o' : Drf) (n : ℕ)
    (hgood : GoodState o)
    (hdi : sw = 0 ∨ o.dataset_index = 0)
    (hswlt : sw < vlen)
    (hb : ∀ p ∈ pairs, p.2 < vlen)
    (hgi : o.global_index + vlen < U64MOD)
    (hg : ∀ p ∈ pairs, p.1 + vlen < U64MOD)
    (hrun : digital_rf_write_samples_to_file o sw pairs v vlen = (o', .ok n)) :
    (∀ rows, digital_rf_create_rf_data_index o sw pairs = .ok rows →
       (rows = [] → o'.global_index = o.global_index + n) ∧
       (∀ h : rows ≠ [],
          o.dataset_index ≤ (rows.getLast h).2 ∧
          (rows.getLast h).2 - o.dataset_index ≤ n ∧
          o.global_start_sample ≤ (rows.getLast h).1 ∧
          o'.global_index + ((rows.getLast h).2 - o.dataset_index) =
            ((rows.getLast h).1 - o.global_start_sample) + n)) ∧
    (List.Chain' chainRelM pairs →
       (sw = 0 → o.global_index ≤ (pairs.headD (0, 0)).1) →
       (0 < sw → (pairs.headD (0, 0)).1 ≤ o.global_index) →
       (pairs.headD (0, 0)).1 ≤ o'.global_index) ∧
    (o.global_index + (vlen - sw) + vlen < U64MOD →
     (∀ p ∈ pairs, p.1 + 2 * vlen < U64MOD) →
     o'.global_index + (vlen - (sw + n)) + vlen < U64MOD) := by
  obtain ⟨hlen, hb0, rows, o1, hidx, hopencase, ho', hn⟩ :=
    write_samples_ok_parts o sw pairs v vlen o' n hrun
  obtain ⟨f1, f2, f3, f4, f5, f6, f7⟩ := slice_o1_facts o sw pairs o1 hgood hopencase
  obtain ⟨b1, b2, b3, b4, b5, b6, b7⟩ := slice_body_spec o1 sw rows v vlen
  rw [← ho'] at b5 b6
  have hnval : n = min (vlen - sw) o1.dataset_avail := hn.trans b1
  obtain ⟨hchainU, hminok⟩ := create_rf_data_index_ok_chain o sw pairs rows hidx
  have hchar := create_rf_data_index_char o sw pairs hchainU hminok
  rw [hidx] at hchar
  simp only at hchar
  cases pairs with
  | nil => simp at hlen
  | cons p0 rest =>
    obtain ⟨g0, b0⟩ := p0
    simp only [List.headD_cons] at hb0 ⊢
    subst hb0
    have hEval : sw + o.samples_per_file - o.dataset_index = sw + o1.dataset_avail := by omega
    rw [hEval] at hchar
    have hmemh : (g0, 0) ∈ (g0, 0) :: rest := List.mem_cons_self _ _
    cases hqe : List.filter (emitP o sw (sw + o1.dataset_avail)) ((g0, 0) :: rest) with
    | nil =>
        rw [hqe] at hchar
        cases hffe : ((g0, 0) :: rest).any (fun p => decide (p.2 = sw)) with
        | true =>
            rw [hffe] at hchar
            simp at hchar
            subst hchar
            have hgie : o'.global_index = o.global_index + n := by
              rw [b5 rfl, f1, ← hnval]
            refine ⟨?_, ?_, ?_⟩
            · intro rows' hidx'
              rw [hidx] at hidx'
              injection hidx' with hh
              subst hh
              exact ⟨fun _ => hgie, fun h => absurd rfl h⟩
            · intro hM hlow hhigh
              by_cases hsw0 : sw = 0
              · have hsupp := List.filter_eq_nil_iff.mp hqe (g0, 0) hmemh
                simp only [emitP, decide_eq_true_eq] at hsupp
                have hgig : o.global_index = g0 := by
                  by_contra hne
                  exact hsupp ⟨by omega, by omega, fun hc => hne hc.2.2⟩
                have := hlow hsw0
                omega
              · have := hhigh (by omega)
                omega
            · intro hJ hg2
              omega
        | false =>
            rw [hffe] at hchar
            simp at hchar
            subst hchar
            have hdi0 : o.dataset_index = 0 := by
              rcases hdi with hsw0 | h
              · exfalso
                simp only [List.any_eq_false, decide_eq_true_eq] at hffe
                exact hffe (g0, 0) hmemh (by simpa using hsw0.symm)
              · exact h
            have hswpos : 0 < sw := by
              rcases hdi with hsw0 | h
              · exfalso
                simp only [List.any_eq_false, decide_eq_true_eq] at hffe
                exact hffe (g0, 0) hmemh (by simpa using hsw0.symm)
              · by_contra hc
                simp only [List.any_eq_false, decide_eq_true_eq] at hffe
                exact hffe (g0, 0) hmemh (by omega)
            have hsne : ([synthRow o] : List (ℕ × ℕ)) ≠ [] := by simp
            have hgie : o'.global_index = o.global_index + n := by
              have h6 := b6 hsne
              simp only [List.getLast_singleton, List.head_cons, synthRow] at h6
              have e0 : usub64 0 0 = 0 := by simp [usub64]
              have e1 : usub64 ((vlen - sw) ⊓ o1.dataset_avail) 0 =
                  (vlen - sw) ⊓ o1.dataset_avail := by
                rw [usub64_self_le _ _ (Nat.zero_le _)]
                omega
              have e2 : usub64 (o.global_index + o.global_start_sample)
                  o.global_start_sample = o.global_index := by
                rw [usub64_self_le _ _ (by omega)]; omega
              rw [f2, e0, e1, e2, wrap64_small _ (by omega)] at h6
              rw [h6, ← hnval]
            refine ⟨?_, ?_, ?_⟩
            · intro rows' hidx'
              rw [hidx] at hidx'
              injection hidx' with hh
              subst hh
              refine ⟨fun hc => absurd hc (by simp), fun h => ?_⟩
              simp only [List.getLast_singleton, synthRow]
              refine ⟨by omega, by omega, by omega, ?_⟩
              rw [hgie]
              omega
            · intro hM hlow hhigh
              have := hhigh hswpos
              omega
            · intro hJ hg2
              omega
    | cons q0 qs =>
        rw [hqe] at hchar
        rw [if_neg (by simp : ¬(q0 :: qs = []))] at hchar
        simp only [List.headD_cons] at hchar
        have hqlne : (q0 :: qs) ≠ [] := List.cons_ne_nil _ _
        have hqlmem : (q0 :: qs).getLast hqlne ∈
            List.filter (emitP o sw (sw + o1.dataset_avail)) ((g0, 0) :: rest) := by
          rw [hqe]; exact List.getLast_mem _
        obtain ⟨hqlpairs, hqlemit⟩ := List.mem_filter.mp hqlmem
        simp only [emitP, decide_eq_true_eq] at hqlemit
        have hbq := hb _ hqlpairs
        have hgq : ((q0 :: qs).getLast hqlne).1 + n < U64MOD := by
          have := hg _ hqlpairs
          omega
        have hqlt : ((q0 :: qs).getLast hqlne).2 < sw + n := by
          omega
        by_cases hq0 : q0.2 = sw
        · rw [if_pos hq0] at hchar
          simp only [Except.ok.injEq] at hchar
          subst hchar
          have hmapne : (q0 :: qs).map (rowOf o sw) ≠ [] := by simp
          have hlasteq : ((q0 :: qs).map (rowOf o sw)).getLast hmapne =
              rowOf o sw ((q0 :: qs).getLast hqlne) :=
            getLast_map_pair _ _ hqlne hmapne
          have hheadeq : ((q0 :: qs).map (rowOf o sw)).head hmapne = rowOf o sw q0 := by
            simp
          have hhc : (rowOf o sw q0).2 = o.dataset_index := by
            simp only [rowOf, hq0]
            omega
          have h6 := b6 hmapne
          rw [hlasteq, hheadeq, ← hnval] at h6
          have hgival : o'.global_index =
              wrap64 (usub64 (((q0 :: qs).getLast hqlne).1 + o.global_start_sample)
                        o1.global_start_sample +
                      usub64 n (usub64 (((q0 :: qs).getLast hqlne).2 + o.dataset_index - sw)
                        ((rowOf o sw q0).2))) := h6
          obtain ⟨cA, cB, cC, cD, cE⟩ :=
            slice_last_pair_calc o o1 o' sw n ((q0 :: qs).getLast hqlne) ((rowOf o sw q0).2)
              f2 hhc (by omega) hqlt hgq hgival
          refine ⟨?_, ?_, ?_⟩
          · intro rows' hidx'
            rw [hidx] at hidx'
            injection hidx' with hh
            subst hh
            refine ⟨fun hc => absurd hc (by simp), fun h => ?_⟩
            rw [hlasteq]
            exact ⟨cA, cB, cC, cD⟩
          · intro hM hlow hhigh
            have htel := chainM_le g0 0 rest hM _ hqlpairs
            omega
          · intro hJ hg2
            have := hg2 _ hqlpairs
            omega
        · rw [if_neg hq0] at hchar
          cases hffe : ((g0, 0) :: rest).any (fun p => decide (p.2 = sw)) with
          | true =>
              rw [hffe] at hchar
              simp at hchar
          | false =>
              rw [hffe] at hchar
              simp only [Bool.false_eq_true, if_false, Except.ok.injEq] at hchar
              subst hchar
              have hdi0 : o.dataset_index = 0 := by
                rcases hdi with hsw0 | h
                · exfalso
                  simp only [List.any_eq_false, decide_eq_true_eq] at hffe
                  exact hffe (g0, 0) hmemh (by simpa using hsw0.symm)
                · exact h
              have hswpos : 0 < sw := by
                by_contra hc
                simp only [List.any_eq_false, decide_eq_true_eq] at hffe
                exact hffe (g0, 0) hmemh (by omega)
              have hrowsne : synthRow o :: (q0 :: qs).map (rowOf o sw) ≠ [] := by simp
              have hmapne : (q0 :: qs).map (rowOf o sw) ≠ [] := by simp
              have hlasteq : (synthRow o :: (q0 :: qs).map (rowOf o sw)).getLast hrowsne =
                  rowOf o sw ((q0 :: qs).getLast hqlne) := by
                rw [List.getLast_cons hmapne]
                exact getLast_map_pair _ _ hqlne hmapne
              have hheadeq : (synthRow o :: (q0 :: qs).map (rowOf o sw)).head hrowsne =
                  synthRow o := by simp
              have hhc : (synthRow o).2 = o.dataset_index := by
                simp [synthRow, hdi0]
              have h6 := b6 hrowsne
              rw [hlasteq, hheadeq, ← hnval] at h6
              have hgival : o'.global_index =
                  wrap64 (usub64 (((q0 :: qs).getLast hqlne).1 + o.global_start_sample)
                            o1.global_start_sample +
                          usub64 n (usub64 (((q0 :: qs).getLast hqlne).2 + o.dataset_index - sw)
                            ((synthRow o).2))) := h6
              obtain ⟨cA, cB, cC, cD, cE⟩ :=
                slice_last_pair_calc o o1 o' sw n ((q0 :: qs).getLast hqlne) ((synthRow o).2)
                  f2 hhc (by omega) hqlt hgq hgival
              refine ⟨?_, ?_, ?_⟩
              · intro rows' hidx'
                rw [hidx] at hidx'
                injection hidx' with hh
                subst hh
                refine ⟨fun hc => absurd hc (by simp), fun h => ?_⟩
                rw [hlasteq]
                exact ⟨cA, cB, cC, cD⟩
              · intro hM hlow hhigh
                have htel := chainM_le g0 0 rest hM _ hqlpairs
                omega
              · intro hJ hg2
                have := hg2 _ hqlpairs
                omega

theorem create_new_directory_err_kind (o : Drf) (g : ℕ) (e : DrfError)
    (h : (digital_rf_create_new_directory o g).2 = .error e) :
    e = .gmtimeFailed ∨ e = .mkdirFailed := by
  unfold digital_rf_create_new_directory at h
  cases hsub : drfSubdirName o g with
  | none => rw [hsub] at h; simp at h; exact Or.inl h.symm
  | some sub =>
      rw [hsub] at h
      by_cases hd : (o.directory ++ sub) ∈ o.dirs
      · simp only [hd, if_true] at h
        simp at h
        exact Or.inr h.symm
      · simp only [hd, if_false] at h
        simp at h

theorem drf_open_file_err_kind (o : Drf) (g : ℕ) (e : DrfError)
    (h : (drfOpenFileInSubdir o g).2 = .error e) : e = .fileCreateFailed := by
  unfold drfOpenFileInSubdir at h
  by_cases hc : ((o.files.map DrfFileRec.name).contains (drfFullFileName o g) : Prop)
  · rw [if_pos hc] at h
    simp at h
    exact h.symm
  · rw [if_neg hc] at h
    simp at h

theorem create_hdf5_file_err_kind (o : Drf) (g : ℕ) (e : DrfError)
    (h : (digital_rf_create_hdf5_file o g).2 = .error e) :
    e = .gmtimeFailed ∨ e = .mkdirFailed ∨ e = .fileCreateFailed := by
  rw [create_hdf5_file_cases] at h
  simp only at h
  by_cases hc : (o.present_seq + 1) % (o.files_per_directory : ℤ) = 0
  · rw [if_pos hc] at h
    cases hnd : digital_rf_create_new_directory
        { o with present_seq := o.present_seq + 1 } g with
    | mk o2 r =>
        rw [hnd] at h
        cases r with
        | error e2 =>
            simp at h
            have := create_new_directory_err_kind
              { o with present_seq := o.present_seq + 1 } g e2 (by rw [hnd])
            rcases this with h1 | h1
            · exact Or.inl (h ▸ h1)
            · exact Or.inr (Or.inl (h ▸ h1))
        | ok u =>
            cases u
            simp only at h
            exact Or.inr (Or.inr (drf_open_file_err_kind o2 g e h))
  · rw [if_neg hc] at h
    exact Or.inr (Or.inr (drf_open_file_err_kind _ g e h))

theorem write_samples_err_kind (o : Drf) (sw : ℕ) (pairs : List (ℕ × ℕ))
    (v : List ℕ) (vlen : ℕ) (o' : Drf) (e : DrfError)
    (herr : digital_rf_write_samples_to_file o sw pairs v vlen = (o', .error e))
    (hlen : 1 ≤ pairs.length) (hb0 : (pairs.headD (0, 0)).2 = 0)
    (hchainU : List.Chain' chainRelU pairs)
    (hmin : ¬(sw = 0 ∧ (pairs.headD (0, 0)).1 < o.global_index)) :
    e = .assertFailed ∨ e = .gmtimeFailed ∨ e = .mkdirFailed ∨ e = .fileCreateFailed := by
  unfold digital_rf_write_samples_to_file at herr
  rw [if_neg (by omega)] at herr
  rw [if_neg (by omega)] at herr
  have hchar := create_rf_data_index_char o sw pairs hchainU hmin
  cases hidx : digital_rf_create_rf_data_index o sw pairs with
  | error e2 =>
      rw [hidx] at herr hchar
      simp only [Prod.mk.injEq] at herr
      have he2 : e2 = .assertFailed := by
        simp only at hchar
        by_cases h1 : pairs.filter (emitP o sw (sw + o.samples_per_file - o.dataset_index)) = []
        · rw [if_pos h1] at hchar
          by_cases h2 : (pairs.any fun p => decide (p.2 = sw)) = true
          · rw [if_pos h2] at hchar; exact absurd hchar (by simp)
          · rw [if_neg h2] at hchar; exact absurd hchar (by simp)
        · rw [if_neg h1] at hchar
          by_cases h2 : ((pairs.filter (emitP o sw (sw + o.samples_per_file - o.dataset_index))).headD (0, 0)).2 = sw
          · rw [if_pos h2] at hchar; exact absurd hchar (by simp)
          · rw [if_neg h2] at hchar
            by_cases h3 : (pairs.any fun p => decide (p.2 = sw)) = true
            · rw [if_pos h3] at hchar
              simp only [Except.error.injEq] at hchar
              exact hchar
            · rw [if_neg h3] at hchar; exact absurd hchar (by simp)
      have heq : e2 = e := by injection herr.2
      exact Or.inl (heq ▸ he2)
  | ok rows =>
      rw [hidx] at herr
      cases hopen : o.file_open with
      | true =>
          rw [hopen] at herr
          simp at herr
      | false =>
          rw [hopen] at herr
          cases hcr : digital_rf_create_hdf5_file o
              (digital_rf_get_global_sample sw pairs) with
          | mk o1 r =>
              rw [hcr] at herr
              cases r with
              | error e2 =>
                  simp only [Bool.false_eq_true, if_false, Prod.mk.injEq] at herr
                  have := create_hdf5_file_err_kind o
                    (digital_rf_get_global_sample sw pairs) e2 (by rw [hcr])
                  have heq : e2 = e := by injection herr.2
                  rw [heq] at this
                  exact Or.inr this
              | ok u =>
                  cases u
                  simp at herr

theorem write_blocks_loop_errs (pairs : List (ℕ × ℕ)) (v : List ℕ) (vlen : ℕ)
    (hlen : 1 ≤ pairs.length) (hb0 : (pairs.headD (0, 0)).2 = 0)
    (hchainU : List.Chain' chainRelU pairs) :
    ∀ fuel o sw o' r,
      write_blocks_loop pairs v vlen fuel o sw = (o', r) →
      GoodState o →
      (sw = 0 → ¬((pairs.headD (0, 0)).1 < o.global_index)) →
      (0 < sw → sw < vlen → o.file_open = false ∧ o.dataset_index = 0) →
      vlen - sw < fuel →
      r ≠ .error .fuelExhausted ∧
      ∀ e, r = .error e →
        e = .assertFailed ∨ e = .gmtimeFailed ∨ e = .mkdirFailed ∨
          e = .fileCreateFailed := by
  intro fuel
  induction fuel with
  | zero => intro o sw o' r _ _ _ _ hf; omega
  | succ fuel ih =>
      intro o sw o' r hrun hgood hmin hcl hf
      unfold write_blocks_loop at hrun
      by_cases hsw : sw < vlen
      · rw [if_pos hsw] at hrun
        cases hslice : digital_rf_write_samples_to_file o sw pairs v vlen with
        | mk o1 rr =>
            rw [hslice] at hrun
            cases rr with
            | error e =>
                simp only [Prod.mk.injEq] at hrun
                have hkind := write_samples_err_kind o sw pairs v vlen o1 e hslice
                  hlen hb0 hchainU (fun hc => hmin hc.1 hc.2)
                constructor
                · rw [← hrun.2]
                  rcases hkind with h | h | h | h <;> (subst h; simp)
                · intro e2 he2
                  rw [← hrun.2] at he2
                  injection he2 with hee
                  exact hee ▸ hkind
            | ok n =>
                have hA := write_samples_slice_basic o sw pairs v vlen o1 n
                  hgood hsw hslice
                simp only [if_neg (by omega : ¬ n = 0)] at hrun
                exact ih o1 (sw + n) o' r hrun hA.1
                  (fun h0 => absurd h0 (by omega))
                  (fun _ hlt => hA.2.2.2.2.2 hlt) (by omega)
      · rw [if_neg hsw] at hrun
        simp only [Prod.mk.injEq] at hrun
        constructor
        · rw [← hrun.2]; simp
        · intro e he; rw [← hrun.2] at he; exact absurd he (by simp)

theorem write_blocks_loop_ge (pairs : List (ℕ × ℕ)) (v : List ℕ) (vlen : ℕ)
    (hchainM : List.Chain' chainRelM pairs)
    (hb : ∀ p ∈ pairs, p.2 < vlen)
    (hg2 : ∀ p ∈ pairs, p.1 + 2 * vlen < U64MOD)
    (hvlen : 1 ≤ vlen) :
    ∀ fuel o sw o',
      write_blocks_loop pairs v vlen fuel o sw = (o', .ok ()) →
      GoodState o →
      (0 < sw → sw < vlen → o.file_open = false ∧ o.dataset_index = 0) →
      o.global_index + (vlen - sw) + vlen < U64MOD →
      (sw = 0 → o.global_index ≤ (pairs.headD (0, 0)).1) →
      (0 < sw → (pairs.headD (0, 0)).1 ≤ o.global_index) →
      (pairs.headD (0, 0)).1 ≤ o'.global_index := by
  intro fuel
  induction fuel with
  | zero =>
      intro o sw o' hrun _ _ _ _ hhigh
      unfold write_blocks_loop at hrun
      by_cases hsw : sw < vlen
      · rw [if_pos hsw] at hrun; simp at hrun
      · rw [if_neg hsw] at hrun
        simp only [Prod.mk.injEq] at hrun
        rw [← hrun.1]
        exact hhigh (by omega)
  | succ fuel ih =>
      intro o sw o' hrun hgood hcl hJ hlow hhigh
      unfold write_blocks_loop at hrun
      by_cases hsw : sw < vlen
      · rw [if_pos hsw] at hrun
        cases hslice : digital_rf_write_samples_to_file o sw pairs v vlen with
        | mk o1 rr =>
            rw [hslice] at hrun
            cases rr with
            | error e => simp at hrun
            | ok n =>
                have hA := write_samples_slice_basic o sw pairs v vlen o1 n
                  hgood hsw hslice
                have hdi : sw = 0 ∨ o.dataset_index = 0 := by
                  rcases Nat.eq_zero_or_pos sw with h0 | h0
                  · exact Or.inl h0
                  · exact Or.inr (hcl h0 hsw).2
                have hG := write_samples_slice_global o sw pairs v vlen o1 n
                  hgood hdi hsw hb (by omega)
                  (fun p hp => by have := hg2 p hp; omega) hslice
                have hge1 : (pairs.headD (0, 0)).1 ≤ o1.global_index :=
                  hG.2.1 hchainM hlow hhigh
                have hJ1 := hG.2.2 hJ hg2
                simp only [if_neg (by omega : ¬ n = 0)] at hrun
                exact ih o1 (sw + n) o' hrun hA.1
                  (fun _ hlt => hA.2.2.2.2.2 hlt) hJ1
                  (fun h0 => absurd h0 (by omega)) (fun _ => hge1)
      · rw [if_neg hsw] at hrun
        simp only [Prod.mk.injEq] at hrun
        rw [← hrun.1]
        exact hhigh (by omega)

theorem emitP_spec (o : Drf) (sw : ℕ) (hdi : o.dataset_index ≤ o.samples_per_file)
    (p : ℕ × ℕ) :
    emitP o sw (sw + o.samples_per_file - o.dataset_index) p =
      decide (sw ≤ p.2 ∧ p.2 < sw + (o.samples_per_file - o.dataset_index) ∧
        ¬(p.2 = sw ∧ 0 < o.dataset_index ∧ o.global_index = p.1)) := by
  have he : sw + o.samples_per_file - o.dataset_index =
      sw + (o.samples_per_file - o.dataset_index) := by omega
  rw [emitP, he]

theorem write_samples_precheck (o : Drf) (sw : ℕ) (pairs : List (ℕ × ℕ))
    (v : List ℕ) (vlen : ℕ) (hk : 1 ≤ pairs.length) :
    ((pairs.headD (0, 0)).2 ≠ 0 →
       digital_rf_write_samples_to_file o sw pairs v vlen =
         (o, .error .firstDataIndexNonzero)) ∧
    ((pairs.headD (0, 0)).2 = 0 →
     ¬(sw = 0 ∧ (pairs.headD (0, 0)).1 < o.global_index) →
     ¬ List.Chain' chainRelU pairs →
       ∃ e, digital_rf_write_samples_to_file o sw pairs v vlen = (o, .error e) ∧
         e.isIndexMalformed = true) := by
  constructor
  · intro hb0
    unfold digital_rf_write_samples_to_file
    rw [if_neg (by omega), if_pos hb0]
  · intro hb0 hmin hnc
    unfold digital_rf_write_samples_to_file
    rw [if_neg (by omega), if_neg (not_ne_iff.mpr hb0)]
    unfold digital_rf_create_rf_data_index
    rw [if_neg hmin]
    cases hp : rf_index_pass1 o sw (sw + o.samples_per_file - o.dataset_index)
        pairs none false 0 with
    | ok x =>
        exact absurd (by simpa using
          rf_index_pass1_ok_chain o sw _ pairs none false 0 x hp) hnc
    | error er =>
        refine ⟨er, rfl, ?_⟩
        rcases rf_index_pass1_err_kind o sw _ pairs none false 0 er hp with h | h <;>
          (subst h; rfl)

theorem create_new_directory_ok_dirs (o : Drf) (g : ℕ) (o' : Drf) (sub : String)
    (hsub : drfSubdirName o g = some sub)
    (h : digital_rf_create_new_directory o g = (o', .ok ())) :
    o'.dirs = o.dirs ++ [o.directory ++ sub] ∧
    o'.sub_directory = some (sub ++ "/") ∧
    o'.directory = o.directory ∧ o'.files = o.files ∧
    o'.present_seq = o.present_seq ∧
    o'.global_start_sample = o.global_start_sample ∧
    o'.sample_rate = o.sample_rate := by
  unfold digital_rf_create_new_directory at h
  rw [hsub] at h
  by_cases hd : (o.directory ++ sub) ∈ o.dirs
  · simp only [hd, if_true] at h
    exact absurd h (by simp)
  · simp only [hd, if_false] at h
    simp only [Prod.mk.injEq] at h
    rw [← h.1]
    exact ⟨rfl, rfl, rfl, rfl, rfl, rfl, rfl⟩

theorem drf_open_file_ok_name (o : Drf) (g : ℕ) (o' : Drf)
    (h : drfOpenFileInSubdir o g = (o', .ok ())) :
    o'.files = o.files ++ [{ name := drfFullFileName o g, seq := o.present_seq,
                              rf_data := [], rf_data_index := [] }] ∧
    o'.sub_directory = o.sub_directory ∧ o'.dirs = o.dirs ∧
    o'.directory = o.directory := by
  unfold drfOpenFileInSubdir at h
  by_cases hcon : ((o.files.map DrfFileRec.name).contains (drfFullFileName o g) : Prop)
  · rw [if_pos hcon] at h
    exact absurd h (by simp)
  · rw [if_neg hcon] at h
    simp only [Prod.mk.injEq] at h
    rw [← h.1]
    exact ⟨rfl, rfl, rfl, rfl⟩

/-- C2 (amended): for the gap-index build over the slice starting at
buffer position `sw` with capacity `samples_per_file - dataset_index`:
whenever the build returns rows, a user pair `(g, b)` contributes one
exactly when its buffer position lies in the slice's range and it is not a
suppressed continuation (`b` at the slice start while the file is
mid-flight and the global cursor already equals `g`); the rows keep the
pairs' order, each storing global column `g + epoch_sample` and in-file
column `b + in_file_cursor - sw`, possibly after one synthetic boundary
row.  The build does not always return, however: on contract-satisfying
input whose first emitted pair is not at the slice start while some
(suppressed) pair sits exactly there, the two counting passes disagree —
the C writes past its row allocation and aborts on the active assert — and
no row is emitted at all. -/
theorem C2_index_emission (o : Drf) (sw : ℕ) (pairs : List (ℕ × ℕ))
    (hdi : o.dataset_index ≤ o.samples_per_file) :
    (∀ rows, digital_rf_create_rf_data_index o sw pairs = .ok rows →
       ∃ pre, (pre = [] ∨ pre = [synthRow o]) ∧
         rows = pre ++
           (pairs.filter (fun p => decide (sw ≤ p.2 ∧
               p.2 < sw + (o.samples_per_file - o.dataset_index) ∧
               ¬(p.2 = sw ∧ 0 < o.dataset_index ∧ o.global_index = p.1)))).map
             (fun p => (p.1 + o.global_start_sample, p.2 + o.dataset_index - sw))) ∧
    (List.Chain' chainRelU pairs →
     ¬(sw = 0 ∧ (pairs.headD (0, 0)).1 < o.global_index) →
     (pairs.any fun p => decide (p.2 = sw)) = true →
     pairs.filter (fun p => decide (sw ≤ p.2 ∧
         p.2 < sw + (o.samples_per_file - o.dataset_index) ∧
         ¬(p.2 = sw ∧ 0 < o.dataset_index ∧ o.global_index = p.1))) ≠ [] →
     ((pairs.filter (fun p => decide (sw ≤ p.2 ∧
         p.2 < sw + (o.samples_per_file - o.dataset_index) ∧
         ¬(p.2 = sw ∧ 0 < o.dataset_index ∧ o.global_index = p.1)))).headD (0, 0)).2 ≠ sw →
     digital_rf_create_rf_data_index o sw pairs = .error .assertFailed) := by
  have hfe : pairs.filter (fun p => decide (sw ≤ p.2 ∧
      p.2 < sw + (o.samples_per_file - o.dataset_index) ∧
      ¬(p.2 = sw ∧ 0 < o.dataset_index ∧ o.global_index = p.1))) =
      pairs.filter (emitP o sw (sw + o.samples_per_file - o.dataset_index)) := by
    apply List.filter_congr
    intro p _
    rw [emitP_spec o sw hdi p]
  constructor
  · intro rows hok
    obtain ⟨hchainU, hminok⟩ := create_rf_data_index_ok_chain o sw pairs rows hok
    have hchar := create_rf_data_index_char o sw pairs hchainU hminok
    rw [hok] at hchar
    simp only at hchar
    have hre : (fun p : ℕ × ℕ => (p.1 + o.global_start_sample, p.2 + o.dataset_index - sw)) =
        rowOf o sw := rfl
    rw [hfe, hre]
    by_cases hq : pairs.filter
        (emitP o sw (sw + o.samples_per_file - o.dataset_index)) = []
    · rw [if_pos hq] at hchar
      by_cases hff : (pairs.any fun p => decide (p.2 = sw)) = true
      · rw [if_pos hff] at hchar
        injection hchar with hrows
        exact ⟨[], Or.inl rfl, by simp [hrows, hq]⟩
      · rw [if_neg hff] at hchar
        injection hchar with hrows
        exact ⟨[synthRow o], Or.inr rfl, by simp [hrows, hq]⟩
    · rw [if_neg hq] at hchar
      by_cases hq0 : ((pairs.filter
          (emitP o sw (sw + o.samples_per_file - o.dataset_index))).headD (0, 0)).2 = sw
      · rw [if_pos hq0] at hchar
        injection hchar with hrows
        exact ⟨[], Or.inl rfl, by simp [hrows]⟩
      · rw [if_neg hq0] at hchar
        by_cases hff : (pairs.any fun p => decide (p.2 = sw)) = true
        · rw [if_pos hff] at hchar
          exact absurd hchar (by simp)
        · rw [if_neg hff] at hchar
          injection hchar with hrows
          exact ⟨[synthRow o], Or.inr rfl, by simp [hrows]⟩
  · intro hchainU hminok hff hqne hq0
    rw [hfe] at hqne hq0
    have hchar := create_rf_data_index_char o sw pairs hchainU hminok
    simp only at hchar
    rw [if_neg hqne, if_neg hq0, if_pos hff] at hchar
    exact hchar

/-- C2 counterexample: in the mid-file state `drfMid` the pair `(20, 3)`
satisfies the claimed emission condition and the index arrays satisfy the
producer contract, yet with the suppressed continuation `(5, 0)` also
present the build emits nothing: the two counting passes disagree, the C
writes past its single-row allocation and aborts on the active assert. -/
theorem C2_index_emission_cex :
    ((0 : ℕ) ≤ 3 ∧ 3 < 0 + (drfMid.samples_per_file - drfMid.dataset_index) ∧
       ¬((3 : ℕ) = 0 ∧ 0 < drfMid.dataset_index ∧ drfMid.global_index = 20)) ∧
    List.Chain' chainRelU [(5, 0), (20, 3)] ∧
    digital_rf_create_rf_data_index drfMid 0 [(5, 0), (20, 3)] =
      .error .assertFailed :=
  ⟨by decide, List.chain'_pair.mpr ⟨by decide, by decide⟩, rfl⟩

/-- C2 witness: the mid-file state with the single pair `(20, 3)` emits the
synthetic boundary row `(105, 0)` followed by the row `(120, 6)`. -/
theorem C2_index_emission_witness :
    ∃ pre, (pre = [] ∨ pre = [synthRow drfMid]) ∧
      [(105, 0), (120, 6)] = pre ++
        ([((20 : ℕ), (3 : ℕ))].filter (fun p => decide (0 ≤ p.2 ∧
            p.2 < 0 + (drfMid.samples_per_file - drfMid.dataset_index) ∧
            ¬(p.2 = 0 ∧ 0 < drfMid.dataset_index ∧ drfMid.global_index = p.1)))).map
          (fun p => (p.1 + drfMid.global_start_sample, p.2 + drfMid.dataset_index - 0)) :=
  (C2_index_emission drfMid 0 [(20, 3)] (by decide)).1 [(105, 0), (120, 6)] rfl

/-- C3 (amended): for a slice that begins a fresh file (`in_file_cursor = 0`
and positive file capacity), a successful gap-index build emits at least one
row, the first row's in-file column is 0, and when no user pair lies exactly
at the slice's first buffer position the first row is the synthetic row
`(next_expected_global + epoch_sample, 0)`.  The original claim's further
clause — that the synthetic row is also emitted when every candidate row was
suppressed — is false: suppression requires a mid-file cursor, and then the
builder returns no rows at all. -/
theorem C3_boundary_row (o : Drf) (sw : ℕ) (pairs rows : List (ℕ × ℕ))
    (hsp : 0 < o.samples_per_file) (hdi : o.dataset_index = 0)
    (hok : digital_rf_create_rf_data_index o sw pairs = .ok rows) :
    rows ≠ [] ∧ (rows.headD (0, 0)).2 = 0 ∧
    ((pairs.any fun p => decide (p.2 = sw)) = false →
       rows.headD (0, 0) = synthRow o) := by
  obtain ⟨hchainU, hminok⟩ := create_rf_data_index_ok_chain o sw pairs rows hok
  have hchar := create_rf_data_index_char o sw pairs hchainU hminok
  rw [hok] at hchar
  simp only at hchar
  have hesw : sw < sw + o.samples_per_file - o.dataset_index := by omega
  by_cases hq : pairs.filter
      (emitP o sw (sw + o.samples_per_file - o.dataset_index)) = []
  · rw [if_pos hq] at hchar
    by_cases hff : (pairs.any fun p => decide (p.2 = sw)) = true
    · exfalso
      obtain ⟨p, hp, hpb⟩ := List.any_eq_true.mp hff
      have hpb2 : p.2 = sw := of_decide_eq_true hpb
      have hemit : emitP o sw (sw + o.samples_per_file - o.dataset_index) p = true := by
        simp only [emitP, decide_eq_true_eq]
        exact ⟨by omega, by omega, fun hcon => absurd hcon.2.1 (by omega)⟩
      have hmem : p ∈ pairs.filter
          (emitP o sw (sw + o.samples_per_file - o.dataset_index)) :=
        List.mem_filter.mpr ⟨hp, hemit⟩
      rw [hq] at hmem
      exact absurd hmem (by simp)
    · rw [if_neg hff] at hchar
      injection hchar with hrows
      subst hrows
      exact ⟨by simp, rfl, fun _ => rfl⟩
  · rw [if_neg hq] at hchar
    obtain ⟨q0, qs, hqeq⟩ := List.exists_cons_of_ne_nil hq
    by_cases hq0 : ((pairs.filter
        (emitP o sw (sw + o.samples_per_file - o.dataset_index))).headD (0, 0)).2 = sw
    · rw [if_pos hq0] at hchar
      injection hchar with hrows
      subst hrows
      rw [hqeq]
      rw [hqeq] at hq0
      simp only [List.headD_cons] at hq0
      refine ⟨by simp, ?_, ?_⟩
      · simp only [List.map_cons, List.headD_cons, rowOf]
        omega
      · intro hff
        exfalso
        have hq0mem : q0 ∈ pairs.filter
            (emitP o sw (sw + o.samples_per_file - o.dataset_index)) := by
          rw [hqeq]; exact List.mem_cons_self q0 qs
        have hq0p : q0 ∈ pairs := (List.mem_filter.mp hq0mem).1
        have : (pairs.any fun p => decide (p.2 = sw)) = true :=
          List.any_eq_true.mpr ⟨q0, hq0p, decide_eq_true hq0⟩
        rw [hff] at this
        exact absurd this (by simp)
    · rw [if_neg hq0] at hchar
      by_cases hff : (pairs.any fun p => decide (p.2 = sw)) = true
      · rw [if_pos hff] at hchar
        exact absurd hchar (by simp)
      · rw [if_neg hff] at hchar
        injection hchar with hrows
        subst hrows
        exact ⟨by simp, rfl, fun _ => rfl⟩

/-- C3 counterexample: in the mid-file state `drfMid` (cursor 3, global
cursor 5) the single pair `(5, 0)` is a candidate at the slice start that is
suppressed as a redundant continuation, yet the builder emits no synthetic
row: the result is zero rows. -/
theorem C3_boundary_row_cex :
    digital_rf_create_rf_data_index drfMid 0 [(5, 0)] = .ok [] := by rfl

/-- C3 witness: a fresh-file slice over the fresh channel with the single
pair `(5, 0)` emits the nonempty row list `[(105, 0)]`, whose first row has
in-file column 0. -/
theorem C3_boundary_row_witness :
    ([((105 : ℕ), (0 : ℕ))] : List (ℕ × ℕ)) ≠ [] ∧
    (([((105 : ℕ), (0 : ℕ))] : List (ℕ × ℕ)).headD (0, 0)).2 = 0 ∧
    (([((5 : ℕ), (0 : ℕ))].any fun p => decide (p.2 = 0)) = false →
       (([((105 : ℕ), (0 : ℕ))] : List (ℕ × ℕ)).headD (0, 0)) = synthRow drfFresh) :=
  C3_boundary_row drfFresh 0 [(5, 0)] [(105, 0)] (by decide) rfl rfl

/-- C4: an append whose first global index lies before the write cursor
fails with `WriteBeforeCursor` and returns the channel state unchanged, so
the cursor, the sequence number, the in-file cursor, the directory list and
every previously written file are untouched; the continuous variant with a
leading global index before the cursor fails identically. -/
theorem C4_write_before_cursor (o : Drf) (pairs : List (ℕ × ℕ)) (v : List ℕ)
    (vlen : ℕ) (hlt : (pairs.headD (0, 0)).1 < o.global_index) :
    digital_rf_write_blocks_hdf5 o pairs v vlen = (o, .error .writeBeforeCursor) ∧
    ∀ g, g < o.global_index →
      digital_rf_write_hdf5 o g v vlen = (o, .error .writeBeforeCursor) := by
  constructor
  · unfold digital_rf_write_blocks_hdf5
    rw [if_pos hlt]
  · intro g hg
    unfold digital_rf_write_hdf5 digital_rf_write_blocks_hdf5
    rw [if_pos (by simpa using hg)]

/-- C4 witness: writing at global index 3 against a cursor at 5 fails with
`WriteBeforeCursor` and leaves the state untouched. -/
theorem C4_write_before_cursor_witness :
    digital_rf_write_blocks_hdf5 drfAhead [(3, 0)] [1] 1 =
      (drfAhead, .error .writeBeforeCursor) :=
  (C4_write_before_cursor drfAhead [(3, 0)] [1] 1 (by decide)).1

/-- C6: the continuous append is definitionally the blocks append applied to
the singleton index arrays `global = [leading_edge]`, `in_buf = [0]`,
`index_len = 1`: the result, the final channel state and the recorded file
contents coincide. -/
theorem C6_continuous_is_singleton_blocks (o : Drf) (g : ℕ) (v : List ℕ)
    (n : ℕ) :
    digital_rf_write_hdf5 o g v n = digital_rf_write_blocks_hdf5 o [(g, 0)] v n := rfl

/-- C1: under the producer contract (indices strictly increasing, in-buffer
advance bounded by the global advance, buffer positions inside the vector,
and all indices far from the `uint64` wrap), a successful `append_blocks`
call leaves `next_expected_global` at or above the call's starting global
index; and after each successful file slice the cursor equals: the last
emitted row's global column without the epoch offset, plus the number of
buffer samples written after that row's position within the slice, when a
row was emitted; or the previous cursor plus the slice length, when none
was. -/
theorem C1_monotonic_cursor (o : Drf) (pairs : List (ℕ × ℕ)) (v : List ℕ)
    (vlen : ℕ)
    (hgood : GoodState o)
    (hchainM : List.Chain' chainRelM pairs)
    (hbv : ∀ p ∈ pairs, p.2 < vlen)
    (hgb : ∀ p ∈ pairs, p.1 + 2 * vlen < U64MOD)
    (hgi : o.global_index + 2 * vlen < U64MOD)
    (hvlen : 1 ≤ vlen) :
    (∀ o', digital_rf_write_blocks_hdf5 o pairs v vlen = (o', .ok ()) →
       (pairs.headD (0, 0)).1 ≤ o'.global_index) ∧
    (∀ sw o' n, (sw = 0 ∨ o.dataset_index = 0) → sw < vlen →
       digital_rf_write_samples_to_file o sw pairs v vlen = (o', .ok n) →
       ∀ rows, digital_rf_create_rf_data_index o sw pairs = .ok rows →
         (rows = [] → o'.global_index = o.global_index + n) ∧
         (∀ h : rows ≠ [],
            o.global_start_sample ≤ (rows.getLast h).1 ∧
            o.dataset_index ≤ (rows.getLast h).2 ∧
            (rows.getLast h).2 - o.dataset_index ≤ n ∧
            o'.global_index = ((rows.getLast h).1 - o.global_start_sample) +
              (n - ((rows.getLast h).2 - o.dataset_index)))) := by
  constructor
  · intro o' hok
    unfold digital_rf_write_blocks_hdf5 at hok
    by_cases hlt : (pairs.headD (0, 0)).1 < o.global_index
    · rw [if_pos hlt] at hok
      exact absurd hok (by simp)
    · rw [if_neg hlt] at hok
      simp only at hok
      by_cases hch : o.needs_chunking = true ∧ o.chunk_size = 0
      · rw [if_pos hch] at hok
        exact write_blocks_loop_ge pairs v vlen hchainM hbv hgb hvlen
          (vlen + 1) _ 0 o' hok hgood (fun h0 => absurd h0 (by omega))
          (show o.global_index + (vlen - 0) + vlen < U64MOD by omega)
          (fun _ => Nat.le_of_not_lt hlt) (fun h0 => absurd h0 (by omega))
      · rw [if_neg hch] at hok
        exact write_blocks_loop_ge pairs v vlen hchainM hbv hgb hvlen
          (vlen + 1) _ 0 o' hok hgood (fun h0 => absurd h0 (by omega))
          (show o.global_index + (vlen - 0) + vlen < U64MOD by omega)
          (fun _ => Nat.le_of_not_lt hlt) (fun h0 => absurd h0 (by omega))
  · intro sw o' n hdi hswlt hrun rows hidx
    have hG := write_samples_slice_global o sw pairs v vlen o' n hgood hdi hswlt
      hbv (by omega) (fun p hp => by have := hgb p hp; omega) hrun
    have h1 := hG.1 rows hidx
    refine ⟨h1.1, ?_⟩
    intro h
    obtain ⟨c1, c2, c3, c4⟩ := h1.2 h
    exact ⟨c3, c1, c2, by omega⟩

/-- C1 witness: a fresh two-sample write at global index 5 succeeds and
leaves the cursor at or above 5. -/
theorem C1_monotonic_cursor_witness :
    ([((5 : ℕ), (0 : ℕ))].headD (0, 0)).1 ≤
      (digital_rf_write_blocks_hdf5 drfFresh [(5, 0)] [1, 2] 2).1.global_index :=
  (C1_monotonic_cursor drfFresh [(5, 0)] [1, 2] 2
      (by unfold GoodState; decide) (List.chain'_singleton _)
      (by decide) (by decide) (by decide) (by decide)).1
    (digital_rf_write_blocks_hdf5 drfFresh [(5, 0)] [1, 2] 2).1 rfl

/-- C5 (amended): once the leading-cursor check has passed, `append_blocks`
fails with an IndexMalformed error when the first in-buffer index is nonzero
or when consecutive pairs violate the checked relation — in-buffer indices
strictly increasing and advancing by no more than the `uint64_t` (wrapped)
difference of the globals — and under those contracts no IndexMalformed
error is ever raised.  The original claim's reading of the advance condition
over the mathematical integers is false: a decrease of the globals passes
the check through the `uint64` wrap. -/
theorem C5_index_malformed (o : Drf) (pairs : List (ℕ × ℕ)) (v : List ℕ)
    (vlen : ℕ)
    (hgood : GoodState o) (hk : 1 ≤ pairs.length) (hvlen : 0 < vlen)
    (hcur : ¬((pairs.headD (0, 0)).1 < o.global_index)) :
    ((pairs.headD (0, 0)).2 ≠ 0 →
       ∃ o', digital_rf_write_blocks_hdf5 o pairs v vlen =
         (o', .error .firstDataIndexNonzero)) ∧
    ((pairs.headD (0, 0)).2 = 0 → ¬ List.Chain' chainRelU pairs →
       ∃ o' e, digital_rf_write_blocks_hdf5 o pairs v vlen = (o', .error e) ∧
         e.isIndexMalformed = true) ∧
    ((pairs.headD (0, 0)).2 = 0 → List.Chain' chainRelU pairs →
       ∀ o' e, digital_rf_write_blocks_hdf5 o pairs v vlen = (o', .error e) →
         e.isIndexMalformed = false) := by
  unfold digital_rf_write_blocks_hdf5
  rw [if_neg hcur]
  simp only
  by_cases hch : o.needs_chunking = true ∧ o.chunk_size = 0
  case pos =>
    rw [if_pos hch]
    set oc : Drf := { o with chunk_size :=
      if vlen < o.samples_per_file then vlen else o.samples_per_file } with hoc
    refine ⟨?_, ?_, ?_⟩
    · intro hb0
      refine ⟨oc, ?_⟩
      unfold write_blocks_loop
      rw [if_pos hvlen, (write_samples_precheck oc 0 pairs v vlen hk).1 hb0]
    · intro hb0 hnc
      obtain ⟨e, he, hmal⟩ := (write_samples_precheck oc 0 pairs v vlen hk).2 hb0
        (fun hc => hcur hc.2) hnc
      refine ⟨oc, e, ?_, hmal⟩
      unfold write_blocks_loop
      rw [if_pos hvlen, he]
    · intro hb0 hchainU o' e hrun
      have hL := write_blocks_loop_errs pairs v vlen hk hb0 hchainU
        (vlen + 1) oc 0 o' (.error e) hrun hgood (fun _ => hcur)
        (fun h0 => absurd h0 (by omega)) (by omega)
      rcases hL.2 e rfl with h | h | h | h <;> (subst h; rfl)
  case neg =>
    rw [if_neg hch]
    refine ⟨?_, ?_, ?_⟩
    · intro hb0
      refine ⟨o, ?_⟩
      unfold write_blocks_loop
      rw [if_pos hvlen, (write_samples_precheck o 0 pairs v vlen hk).1 hb0]
    · intro hb0 hnc
      obtain ⟨e, he, hmal⟩ := (write_samples_precheck o 0 pairs v vlen hk).2 hb0
        (fun hc => hcur hc.2) hnc
      refine ⟨o, e, ?_, hmal⟩
      unfold write_blocks_loop
      rw [if_pos hvlen, he]
    · intro hb0 hchainU o' e hrun
      have hL := write_blocks_loop_errs pairs v vlen hk hb0 hchainU
        (vlen + 1) o 0 o' (.error e) hrun hgood (fun _ => hcur)
        (fun h0 => absurd h0 (by omega)) (by omega)
      rcases hL.2 e rfl with h | h | h | h <;> (subst h; rfl)

/-- C5 counterexample: the call with global indices 10 then 5 violates the
claimed mathematical advance contract — the in-buffer advance 1 exceeds the
integer global advance 5 − 10 — yet it succeeds, because the code compares
against the wrapped `uint64_t` difference of the globals. -/
theorem C5_index_malformed_cex :
    (digital_rf_write_blocks_hdf5 drfTen [(10, 0), (5, 1)] [7, 7] 2).2 = .ok () ∧
    ((5 : ℤ) - 10 < (1 : ℤ) - 0) := by
  exact ⟨rfl, by decide⟩

/-- C5 witness: a first in-buffer index of 1 makes the call fail with the
IndexMalformed error `firstDataIndexNonzero`. -/
theorem C5_index_malformed_witness :
    ∃ o', digital_rf_write_blocks_hdf5 drfFresh [(5, 1)] [7] 1 =
      (o', .error .firstDataIndexNonzero) :=
  (C5_index_malformed drfFresh [(5, 1)] [7] 1 (by unfold GoodState; decide)
      (by decide) (by decide) (by decide)).1 (by decide)

/-- C10: with a positive file capacity and well-formed index arrays, the
append loop always terminates — its fuel of `vector_length + 1` iterations
is never exhausted and no iteration writes zero samples — and every
successful slice writes at least one sample. -/
theorem C10_loop_terminates (o : Drf) (pairs : List (ℕ × ℕ)) (v : List ℕ)
    (vlen : ℕ)
    (hgood : GoodState o) (hk : 1 ≤ pairs.length)
    (hb0 : (pairs.headD (0, 0)).2 = 0)
    (hchainU : List.Chain' chainRelU pairs) :
    (∀ o' r, digital_rf_write_blocks_hdf5 o pairs v vlen = (o', r) →
       r ≠ .error .fuelExhausted ∧ r ≠ .error .zeroWritten) ∧
    (∀ sw o1 n, sw < vlen →
       digital_rf_write_samples_to_file o sw pairs v vlen = (o1, .ok n) →
       1 ≤ n) := by
  constructor
  · intro o' r hrun
    unfold digital_rf_write_blocks_hdf5 at hrun
    by_cases hlt : (pairs.headD (0, 0)).1 < o.global_index
    · rw [if_pos hlt] at hrun
      simp only [Prod.mk.injEq] at hrun
      rw [← hrun.2]
      exact ⟨by simp, by simp⟩
    · rw [if_neg hlt] at hrun
      simp only at hrun
      by_cases hch : o.needs_chunking = true ∧ o.chunk_size = 0
      · rw [if_pos hch] at hrun
        have hL := write_blocks_loop_errs pairs v vlen hk hb0 hchainU
          (vlen + 1) _ 0 o' r hrun hgood (fun _ => hlt)
          (fun h0 => absurd h0 (by omega)) (by omega)
        refine ⟨hL.1, ?_⟩
        intro hz
        rcases hL.2 .zeroWritten hz with h | h | h | h <;> exact absurd h (by decide)
      · rw [if_neg hch] at hrun
        have hL := write_blocks_loop_errs pairs v vlen hk hb0 hchainU
          (vlen + 1) _ 0 o' r hrun hgood (fun _ => hlt)
          (fun h0 => absurd h0 (by omega)) (by omega)
        refine ⟨hL.1, ?_⟩
        intro hz
        rcases hL.2 .zeroWritten hz with h | h | h | h <;> exact absurd h (by decide)
  · intro sw o1 n hsw hslice
    exact (write_samples_slice_basic o sw pairs v vlen o1 n hgood hsw hslice).2.2.2.1

/-- C10 witness: the fresh two-sample write terminates, exhausting neither
the fuel nor the zero-progress guard. -/
theorem C10_loop_terminates_witness :
    (digital_rf_write_blocks_hdf5 drfFresh [(5, 0)] [1, 2] 2).2 ≠
        .error .fuelExhausted ∧
    (digital_rf_write_blocks_hdf5 drfFresh [(5, 0)] [1, 2] 2).2 ≠
        .error .zeroWritten :=
  (C10_loop_terminates drfFresh [(5, 0)] [1, 2] 2 (by unfold GoodState; decide)
      (by decide) (by decide) (List.chain'_singleton _)).1
    (digital_rf_write_blocks_hdf5 drfFresh [(5, 0)] [1, 2] 2).1
    (digital_rf_write_blocks_hdf5 drfFresh [(5, 0)] [1, 2] 2).2 rfl

/-- C7: opening a file increments the sequence number; a new subdirectory is
created iff the incremented sequence is divisible by `files_per_directory`,
and that creation fails with an error when the target directory already
exists; on success the new file's path is the channel directory, the current
subdirectory and the basename `rf@<seconds>.<millis>.h5`, the fixed-width
11.3 rendering of `(next_global + epoch_sample) / sample_rate`. -/
theorem C7_file_open_naming (o : Drf) (g : ℕ) :
    (digital_rf_create_hdf5_file o g).1.present_seq = o.present_seq + 1 ∧
    ((o.present_seq + 1) % (o.files_per_directory : ℤ) ≠ 0 →
       (digital_rf_create_hdf5_file o g).1.dirs = o.dirs) ∧
    ((o.present_seq + 1) % (o.files_per_directory : ℤ) = 0 →
       ∀ sub, drfSubdirName o g = some sub →
         (o.directory ++ sub ∈ o.dirs →
            digital_rf_create_hdf5_file o g =
              ({ o with present_seq := o.present_seq + 1 }, .error .mkdirFailed)) ∧
         (∀ o', digital_rf_create_hdf5_file o g = (o', .ok ()) →
            o'.dirs = o.dirs ++ [o.directory ++ sub])) ∧
    (∀ o', digital_rf_create_hdf5_file o g = (o', .ok ()) →
       ∃ fr, o'.files = o.files ++ [fr] ∧
         fr.name = o.directory ++ o'.sub_directory.getD "" ++
           ("rf@" ++
             format11_3 (((g + o.global_start_sample : ℕ) : ℚ) / o.sample_rate) ++
             ".h5")) := by
  refine ⟨(create_hdf5_file_spec o g).2.2.2.1, ?_, ?_, ?_⟩
  · intro hc
    rw [create_hdf5_file_cases]
    simp only [if_neg hc]
    simp only [drfOpenFileInSubdir]
    by_cases hcon : ((({ o with present_seq := o.present_seq + 1 } : Drf).files.map
        DrfFileRec.name).contains
        (drfFullFileName { o with present_seq := o.present_seq + 1 } g) : Prop)
    · rw [if_pos hcon]
    · rw [if_neg hcon]
  · intro hc sub hsub
    have hsub1 : drfSubdirName { o with present_seq := o.present_seq + 1 } g =
        some sub := hsub
    constructor
    · intro hmem
      have hnd : digital_rf_create_new_directory
          { o with present_seq := o.present_seq + 1 } g =
          ({ o with present_seq := o.present_seq + 1 }, .error .mkdirFailed) := by
        unfold digital_rf_create_new_directory
        rw [hsub1]
        simp only [hmem, if_true]
      rw [create_hdf5_file_cases]
      simp only [if_pos hc]
      rw [hnd]
    · intro o' hok
      rw [create_hdf5_file_cases] at hok
      simp only [if_pos hc] at hok
      cases hnd : digital_rf_create_new_directory
          { o with present_seq := o.present_seq + 1 } g with
      | mk o2 r =>
          rw [hnd] at hok
          cases r with
          | error e => simp at hok
          | ok u =>
              cases u
              simp only at hok
              obtain ⟨d1, d2, d3, d4, d5, d6, d7⟩ :=
                create_new_directory_ok_dirs _ g o2 sub hsub1 hnd
              obtain ⟨f1, f2, f3, f4⟩ := drf_open_file_ok_name o2 g o' hok
              rw [f3, d1]
  · intro o' hok
    rw [create_hdf5_file_cases] at hok
    simp only at hok
    by_cases hc : (o.present_seq + 1) % (o.files_per_directory : ℤ) = 0
    · rw [if_pos hc] at hok
      cases hnd : digital_rf_create_new_directory
          { o with present_seq := o.present_seq + 1 } g with
      | mk o2 r =>
          rw [hnd] at hok
          cases r with
          | error e => simp at hok
          | ok u =>
              cases u
              simp only at hok
              cases hsubc : drfSubdirName { o with present_seq := o.present_seq + 1 } g with
              | none =>
                  unfold digital_rf_create_new_directory at hnd
                  rw [hsubc] at hnd
                  simp at hnd
              | some sub =>
                  obtain ⟨d1, d2, d3, d4, d5, d6, d7⟩ :=
                    create_new_directory_ok_dirs _ g o2 sub hsubc hnd
                  obtain ⟨f1, f2, f3, f4⟩ := drf_open_file_ok_name o2 g o' hok
                  refine ⟨{ name := drfFullFileName o2 g, seq := o2.present_seq,
                            rf_data := [], rf_data_index := [] }, ?_, ?_⟩
                  · rw [f1, d4]
                  · show drfFullFileName o2 g = _
                    unfold drfFullFileName
                    rw [f2, d3, d6, d7]
    · rw [if_neg hc] at hok
      obtain ⟨f1, f2, f3, f4⟩ :=
        drf_open_file_ok_name { o with present_seq := o.present_seq + 1 } g o' hok
      refine ⟨{ name := drfFullFileName { o with present_seq := o.present_seq + 1 } g,
                seq := ({ o with present_seq := o.present_seq + 1 } : Drf).present_seq,
                rf_data := [], rf_data_index := [] }, ?_, ?_⟩
      · rw [f1]
      · show drfFullFileName { o with present_seq := o.present_seq + 1 } g = _
        unfold drfFullFileName
        rw [f2]

/-- C7 witness: opening the first file of the fresh channel bumps the
sequence to 0, creates the subdirectory for second 100 and records the file
`rf@00000000100.000.h5` inside it. -/
theorem C7_file_open_naming_witness :
    ∃ fr, (digital_rf_create_hdf5_file drfFresh 0).1.files = drfFresh.files ++ [fr] ∧
      fr.name = drfFresh.directory ++
        (digital_rf_create_hdf5_file drfFresh 0).1.sub_directory.getD "" ++
        ("rf@" ++
          format11_3 (((0 + drfFresh.global_start_sample : ℕ) : ℚ) /
            drfFresh.sample_rate) ++ ".h5") :=
  (C7_file_open_naming drfFresh 0).2.2.2
    (digital_rf_create_hdf5_file drfFresh 0).1 rfl


/-- C9: for an integral sample rate, the time conversion derives the
calendar fields from the UTC second `g / rate` (the floor of the quotient)
and the picosecond value from the exact integer remainder
`g - (g / rate) * rate`, divided by the rate, scaled by 10^12 and rounded —
all in exact arithmetic. -/
theorem C9_time_conversion (g r : ℕ) (hr : 1 ≤ r) :
    digital_rf_get_unix_time g (r : ℚ) =
      some { year := (gmtimeModel (g / r)).1,
             month := (gmtimeModel (g / r)).2.1,
             day := (gmtimeModel (g / r)).2.2.1,
             hour := (gmtimeModel (g / r)).2.2.2.1,
             minute := (gmtimeModel (g / r)).2.2.2.2.1,
             second := (gmtimeModel (g / r)).2.2.2.2.2,
             picosecond :=
               (round ((((g - g / r * r : ℕ) : ℚ) / (r : ℚ)) *
                 1000000000000)).toNat } := by
  have hfl : (⌊(g : ℚ) / (r : ℚ)⌋).toNat = g / r := by
    rw [Int.floor_toNat, Nat.floor_div_nat]
    simp
  have hden : ((r : ℕ) : ℚ).den = 1 := Rat.den_natCast r
  have hflr : (⌊((r : ℕ) : ℚ)⌋).toNat = r := by
    rw [Int.floor_natCast]
    exact Int.toNat_natCast r
  unfold digital_rf_get_unix_time
  simp only [hfl, hflr, hden]
  rw [if_pos trivial]

/-- C9 witness: converting global sample 250 at the integral rate 2 Hz
gives the calendar split of second 125 and the picosecond of remainder 0. -/
theorem C9_time_conversion_witness :
    1 ≤ 2 ∧
    digital_rf_get_unix_time 250 ((2 : ℕ) : ℚ) =
      some { year := (gmtimeModel (250 / 2)).1,
             month := (gmtimeModel (250 / 2)).2.1,
             day := (gmtimeModel (250 / 2)).2.2.1,
             hour := (gmtimeModel (250 / 2)).2.2.2.1,
             minute := (gmtimeModel (250 / 2)).2.2.2.2.1,
             second := (gmtimeModel (250 / 2)).2.2.2.2.2,
             picosecond :=
               (round ((((250 - 250 / 2 * 2 : ℕ) : ℚ) / ((2 : ℕ) : ℚ)) *
                 1000000000000)).toNat } :=
  ⟨by decide, C9_time_conversion 250 2 (by decide)⟩

theorem hostBytes_length (littleHost : Bool) (w n : ℕ) :
    (hostBytes littleHost w n).length = w := by
  cases littleHost <;> simp [hostBytes, bytesLE]

theorem h5FillBytes_of_le (buf : List ℕ) (size : ℕ) (h : size ≤ buf.length) :
    h5FillBytes buf size = (buf.take size).map some := by
  apply List.ext_getElem
  · simp [h5FillBytes]
    omega
  · intro i h1 h2
    simp only [h5FillBytes, List.getElem_map, List.getElem_range, List.getElem_take]
    rw [List.getElem?_eq_getElem]

theorem h5FillBytes_full (littleHost : Bool) (w n : ℕ) :
    h5FillBytes (hostBytes littleHost w n) w = (hostBytes littleHost w n).map some := by
  rw [h5FillBytes_of_le _ _ (by rw [hostBytes_length])]
  rw [List.take_of_length_le (by rw [hostBytes_length])]

theorem h5FillBytes_pair (half : List ℕ) (w : ℕ) (hw : half.length = w) :
    h5FillBytes (half ++ half) (2 * w) = half.map some ++ half.map some := by
  rw [h5FillBytes_of_le _ _ (by simp [hw]; omega)]
  rw [List.take_of_length_le (by simp [hw]; omega), List.map_append]


/-- C8 (amended): the stored fill bytes are: for an 8-byte float dataset
the full quiet-NaN double; for a 4-byte float dataset only the double's
first four host bytes — the +0.0f pattern on a little-endian host, a NaN
pattern on a big-endian one; for unsigned integers of at most 4 bytes,
zero; for an 8-byte unsigned integer, four zero bytes followed by four
bytes read out of bounds; for signed integers, the width's minimum
represented in the output byte order (byte-swapped exactly when the output
endianness differs from the host's); and for complex types, two identical
halves.  The original claim's "for every float element type, quiet NaN"
fails for 4-byte scalar floats. -/
theorem C8_fill_values (littleHost : Bool) (dtype : H5Type) :
    (dtype.cls = .float → dtype.size = 8 →
       digital_rf_set_fill_value littleHost dtype false =
         .ok ((hostBytes littleHost 8 nanBits64).map some)) ∧
    (dtype.cls = .float → dtype.size = 4 → littleHost = true →
       digital_rf_set_fill_value littleHost dtype false =
         .ok [some 0, some 0, some 0, some 0]) ∧
    (dtype.cls = .float → dtype.size = 4 → littleHost = false →
       digital_rf_set_fill_value littleHost dtype false =
         .ok [some 127, some 248, some 0, some 0]) ∧
    (dtype.cls = .integer → dtype.signed = false → dtype.size ≤ 4 →
       digital_rf_set_fill_value littleHost dtype false =
         .ok (List.replicate dtype.size (some 0))) ∧
    (dtype.cls = .integer → dtype.signed = false → dtype.size = 8 →
       digital_rf_set_fill_value littleHost dtype false =
         .ok (List.replicate 4 (some 0) ++ List.replicate 4 none)) ∧
    (dtype.cls = .integer → dtype.signed = true →
     ∀ bs, digital_rf_set_fill_value littleHost dtype false = .ok bs →
       ∃ v : ℤ, bs = (hostBytes littleHost dtype.size (toTwos dtype.size v)).map some ∧
         toTwos dtype.size v =
           (if endianFlip littleHost dtype.order then
              byteswap dtype.size (toTwos dtype.size (intMinOf dtype.size))
            else toTwos dtype.size (intMinOf dtype.size))) ∧
    (∀ bs, digital_rf_set_fill_value littleHost dtype true = .ok bs →
       ∃ half, bs = half ++ half) := by
  obtain ⟨cls, sgn, sz, ord⟩ := dtype
  refine ⟨?_, ?_, ?_, ?_, ?_, ?_, ?_⟩
  · intro hcls hsz
    subst hcls; subst hsz
    have hred : digital_rf_set_fill_value littleHost ⟨.float, sgn, 8, ord⟩ false =
        .ok (h5FillBytes (hostBytes littleHost 8 nanBits64) 8) := rfl
    rw [hred, h5FillBytes_full]
  · intro hcls hsz hlh
    subst hcls; subst hsz; subst hlh
    rfl
  · intro hcls hsz hlh
    subst hcls; subst hsz; subst hlh
    rfl
  · intro hcls hsgn hsz
    subst hcls; subst hsgn
    have hred : digital_rf_set_fill_value littleHost ⟨.integer, false, sz, ord⟩ false =
        .ok (h5FillBytes (hostBytes littleHost 4 0) sz) := rfl
    have hb : hostBytes littleHost 4 0 = [0, 0, 0, 0] := by
      cases littleHost <;> rfl
    rw [hred, hb]
    have hsz2 : sz ≤ 4 := hsz
    interval_cases sz <;> rfl
  · intro hcls hsgn hsz
    subst hcls; subst hsgn; subst hsz
    have hb : hostBytes littleHost 4 0 = [0, 0, 0, 0] := by
      cases littleHost <;> rfl
    have hred : digital_rf_set_fill_value littleHost ⟨.integer, false, 8, ord⟩ false =
        .ok (h5FillBytes (hostBytes littleHost 4 0) 8) := rfl
    rw [hred, hb]
    rfl
  · intro hcls hsgn bs hbs
    subst hcls; subst hsgn
    have hred : digital_rf_set_fill_value littleHost ⟨.integer, true, sz, ord⟩ false =
        (if sz = 1 then
           .ok (h5FillBytes (hostBytes littleHost 1 (toTwos 1 (-128))) 1)
         else if sz = 2 then
           .ok (h5FillBytes (hostBytes littleHost 2
                 (toTwos 2 (pickFlip (signedFillPair 2) (endianFlip littleHost ord)))) 2)
         else if sz = 4 then
           .ok (h5FillBytes (hostBytes littleHost 4
                 (toTwos 4 (pickFlip (signedFillPair 4) (endianFlip littleHost ord)))) 4)
         else if sz = 8 then
           .ok (h5FillBytes (hostBytes littleHost 8
                 (toTwos 8 (pickFlip (signedFillPair 8) (endianFlip littleHost ord)))) 8)
         else .error .typeUnsupported) := rfl
    rw [hred] at hbs
    by_cases h1 : sz = 1
    · subst h1
      rw [if_pos rfl, h5FillBytes_full] at hbs
      injection hbs with h
      refine ⟨-128, h.symm, ?_⟩
      cases hf : endianFlip littleHost ord <;> simp [hf] <;> decide
    · by_cases h2 : sz = 2
      · subst h2
        rw [if_neg h1, if_pos rfl, h5FillBytes_full] at hbs
        injection hbs with h
        refine ⟨pickFlip (signedFillPair 2) (endianFlip littleHost ord), h.symm, ?_⟩
        cases hf : endianFlip littleHost ord <;>
          simp [hf, pickFlip, signedFillPair] <;> decide
      · by_cases h4 : sz = 4
        · subst h4
          rw [if_neg h1, if_neg h2, if_pos rfl, h5FillBytes_full] at hbs
          injection hbs with h
          refine ⟨pickFlip (signedFillPair 4) (endianFlip littleHost ord), h.symm, ?_⟩
          cases hf : endianFlip littleHost ord <;>
            simp [hf, pickFlip, signedFillPair] <;> decide
        · by_cases h8 : sz = 8
          · subst h8
            rw [if_neg h1, if_neg h2, if_neg h4, if_pos rfl, h5FillBytes_full] at hbs
            injection hbs with h
            refine ⟨pickFlip (signedFillPair 8) (endianFlip littleHost ord), h.symm, ?_⟩
            cases hf : endianFlip littleHost ord <;>
              simp [hf, pickFlip, signedFillPair] <;> decide
          · rw [if_neg h1, if_neg h2, if_neg h4, if_neg h8] at hbs
            exact absurd hbs (by simp)
  · intro bs hbs
    cases cls with
    | float =>
        by_cases h4 : sz = 4
        · subst h4
          have hred : digital_rf_set_fill_value littleHost ⟨.float, sgn, 4, ord⟩ true =
              .ok (h5FillBytes (hostBytes littleHost 4 nanBits32 ++
                    hostBytes littleHost 4 nanBits32) (2 * 4)) := rfl
          rw [hred, h5FillBytes_pair _ 4 (hostBytes_length littleHost 4 nanBits32)] at hbs
          injection hbs with h
          exact ⟨(hostBytes littleHost 4 nanBits32).map some, h.symm⟩
        · by_cases h8 : sz = 8
          · subst h8
            have hred : digital_rf_set_fill_value littleHost ⟨.float, sgn, 8, ord⟩ true =
                .ok (h5FillBytes (hostBytes littleHost 8 nanBits64 ++
                      hostBytes littleHost 8 nanBits64) (2 * 8)) := rfl
            rw [hred, h5FillBytes_pair _ 8 (hostBytes_length littleHost 8 nanBits64)] at hbs
            injection hbs with h
            exact ⟨(hostBytes littleHost 8 nanBits64).map some, h.symm⟩
          · have hred : digital_rf_set_fill_value littleHost ⟨.float, sgn, sz, ord⟩ true =
                (if H5Class.float = H5Class.float ∧ (true : Bool) = true ∧ sz = 4 then
                   .ok (h5FillBytes (hostBytes littleHost 4 nanBits32 ++
                         hostBytes littleHost 4 nanBits32) (2 * 4))
                 else if H5Class.float = H5Class.float ∧ (true : Bool) = true ∧ sz = 8 then
                   .ok (h5FillBytes (hostBytes littleHost 8 nanBits64 ++
                         hostBytes littleHost 8 nanBits64) (2 * 8))
                 else .error .typeUnsupported) := rfl
            rw [hred, if_neg (by simp [h4]), if_neg (by simp [h8])] at hbs
            exact absurd hbs (by simp)
    | integer =>
        have hred : digital_rf_set_fill_value littleHost ⟨.integer, sgn, sz, ord⟩ true =
            (if sz = 1 then
               (if sgn = false then
                  .ok (h5FillBytes (hostBytes littleHost 1 0 ++ hostBytes littleHost 1 0) (2 * 1))
                else
                  .ok (h5FillBytes (hostBytes littleHost 1 (toTwos 1 (-128)) ++
                        hostBytes littleHost 1 (toTwos 1 (-128))) (2 * 1)))
             else if sz = 2 then
               (if sgn = false then
                  .ok (h5FillBytes (hostBytes littleHost 2 0 ++ hostBytes littleHost 2 0) (2 * 2))
                else
                  .ok (h5FillBytes (hostBytes littleHost 2
                        (toTwos 2 (pickFlip (signedFillPair 2) (endianFlip littleHost ord))) ++
                        hostBytes littleHost 2
                        (toTwos 2 (pickFlip (signedFillPair 2) (endianFlip littleHost ord)))) (2 * 2)))
             else if sz = 4 then
               (if sgn = false then
                  .ok (h5FillBytes (hostBytes littleHost 4 0 ++ hostBytes littleHost 4 0) (2 * 4))
                else
                  .ok (h5FillBytes (hostBytes littleHost 4
                        (toTwos 4 (pickFlip (signedFillPair 4) (endianFlip littleHost ord))) ++
                        hostBytes littleHost 4
                        (toTwos 4 (pickFlip (signedFillPair 4) (endianFlip littleHost ord)))) (2 * 4)))
             else if sz = 8 then
               (if sgn = false then
                  .ok (h5FillBytes (hostBytes littleHost 8 0 ++ hostBytes littleHost 8 0) (2 * 8))
                else
                  .ok (h5FillBytes (hostBytes littleHost 8
                        (toTwos 8 (pickFlip (signedFillPair 8) (endianFlip littleHost ord))) ++
                        hostBytes littleHost 8
                        (toTwos 8 (pickFlip (signedFillPair 8) (endianFlip littleHost ord)))) (2 * 8)))
             else .error .typeUnsupported) := rfl
        rw [hred] at hbs
        by_cases h1 : sz = 1
        · rw [if_pos h1] at hbs
          cases sgn with
          | false =>
              rw [if_pos rfl, h5FillBytes_pair _ 1 (hostBytes_length littleHost 1 0)] at hbs
              injection hbs with h
              exact ⟨(hostBytes littleHost 1 0).map some, h.symm⟩
          | true =>
              rw [if_neg (by simp),
                  h5FillBytes_pair _ 1 (hostBytes_length littleHost 1 _)] at hbs
              injection hbs with h
              exact ⟨(hostBytes littleHost 1 (toTwos 1 (-128))).map some, h.symm⟩
        · rw [if_neg h1] at hbs
          by_cases h2 : sz = 2
          · rw [if_pos h2] at hbs
            cases sgn with
            | false =>
                rw [if_pos rfl, h5FillBytes_pair _ 2 (hostBytes_length littleHost 2 0)] at hbs
                injection hbs with h
                exact ⟨(hostBytes littleHost 2 0).map some, h.symm⟩
            | true =>
                rw [if_neg (by simp),
                    h5FillBytes_pair _ 2 (hostBytes_length littleHost 2 _)] at hbs
                injection hbs with h
                exact ⟨(hostBytes littleHost 2
                  (toTwos 2 (pickFlip (signedFillPair 2)
                    (endianFlip littleHost ord)))).map some, h.symm⟩
          · rw [if_neg h2] at hbs
            by_cases h4 : sz = 4
            · rw [if_pos h4] at hbs
              cases sgn with
              | false =>
                  rw [if_pos rfl, h5FillBytes_pair _ 4 (hostBytes_length littleHost 4 0)] at hbs
                  injection hbs with h
                  exact ⟨(hostBytes littleHost 4 0).map some, h.symm⟩
              | true =>
                  rw [if_neg (by simp),
                      h5FillBytes_pair _ 4 (hostBytes_length littleHost 4 _)] at hbs
                  injection hbs with h
                  exact ⟨(hostBytes littleHost 4
                    (toTwos 4 (pickFlip (signedFillPair 4)
                      (endianFlip littleHost ord)))).map some, h.symm⟩
            · rw [if_neg h4] at hbs
              by_cases h8 : sz = 8
              · rw [if_pos h8] at hbs
                cases sgn with
                | false =>
                    rw [if_pos rfl, h5FillBytes_pair _ 8 (hostBytes_length littleHost 8 0)] at hbs
                    injection hbs with h
                    exact ⟨(hostBytes littleHost 8 0).map some, h.symm⟩
                | true =>
                    rw [if_neg (by simp),
                        h5FillBytes_pair _ 8 (hostBytes_length littleHost 8 _)] at hbs
                    injection hbs with h
                    exact ⟨(hostBytes littleHost 8
                      (toTwos 8 (pickFlip (signedFillPair 8)
                        (endianFlip littleHost ord)))).map some, h.symm⟩
              · rw [if_neg h8] at hbs
                exact absurd hbs (by simp)

/-- C8 counterexample: on a little-endian host the fill stored for a
4-byte float dataset is the first four host bytes of the 8-byte double
NaN — the all-zero pattern of `+0.0f`, whose exponent field is not
all-ones, hence not a NaN. -/
theorem C8_fill_values_cex :
    digital_rf_set_fill_value true ⟨.float, true, 4, .le⟩ false =
      .ok [some 0, some 0, some 0, some 0] ∧
    fromBytesLE [0, 0, 0, 0] / 2 ^ 23 % 256 ≠ 255 :=
  ⟨rfl, by decide⟩

/-- C8 witness: a signed 2-byte big-endian dataset on a little-endian host
stores the bytes of the value whose two's-complement representation is the
byte-swapped 16-bit minimum. -/
theorem C8_fill_values_witness :
    ∃ v : ℤ, [some 128, some 0] = (hostBytes true 2 (toTwos 2 v)).map some ∧
      toTwos 2 v =
        (if endianFlip true H5Order.be then byteswap 2 (toTwos 2 (intMinOf 2))
         else toTwos 2 (intMinOf 2)) :=
  (C8_fill_values true ⟨.integer, true, 2, .be⟩).2.2.2.2.2.1 rfl rfl
    [some 128, some 0] rfl
